import Mathlib

/-!
Verification development for the systemd-boot-lifeboat retention engine
(`systemd_boot_lifeboat.py`).

The program state is modelled as a finite map from `(root, path)` pairs to
file contents (`Fs`).  A content digest (`md5` in the source) is modelled by
the file content itself: two files have equal digests exactly when their
bytes are equal, which is the property the source relies on.  Chroot entry
(`Chroot.__enter__`) is modelled by a success predicate `env : String → Bool`
on root paths; entering `"/"` from the rest state always succeeds, matching
the skip branch of `Chroot.__enter__`.  Fallible operations return
`Except Err`; raising an exception in Python corresponds to an `.error`
result.  `DRY_RUN` is an explicit boolean parameter threaded to the mutating
primitives, exactly at the points where the source consults the global.

Python iterates `FIELDS_WITH_FILES` and `CONF_FIELDS` as hash sets whose
order is arbitrary; the model fixes the declaration order
(title, version, machine-id, sort-key, linux, initrd, efi, options,
devicetree, devicetree-overlay, architecture).  No claim treated here
depends on that order: equivalence conjoins per-field results, and the
serialized descriptor's bytes are never inspected by a claim.
-/

/-- Decimal digit character, `str(ts)` building block. -/
def digitChar : Nat → Char
  | 0 => '0' | 1 => '1' | 2 => '2' | 3 => '3' | 4 => '4'
  | 5 => '5' | 6 => '6' | 7 => '7' | 8 => '8' | _ => '9'

/-- Fuelled helper for `natToDigits`; the fuel only drives structural
recursion and is always sufficient at the wrapper's call. -/
def natToDigitsAux : Nat → Nat → List Char
  | 0, _ => []
  | fuel + 1, n =>
    if n < 10 then [digitChar n]
    else natToDigitsAux fuel (n / 10) ++ [digitChar (n % 10)]

/-- Decimal digits of a natural number, most significant first (Python `str(ts)`). -/
def natToDigits (n : Nat) : List Char := natToDigitsAux (n + 1) n

/-- Python `str(ts)` for a non-negative integer timestamp. -/
def toDecStr (n : Nat) : String := ⟨natToDigits n⟩

/-- Value of a list of decimal digit characters (Python `int(match.group(1))`). -/
def digitsToNat (l : List Char) : Nat :=
  l.foldl (fun acc c => acc * 10 + (c.toNat - 48)) 0

/-- Everything after the last `/`, i.e. `os.path.basename` on POSIX. -/
def basenameL (l : List Char) : List Char :=
  (l.reverse.takeWhile (fun c => !(c == '/'))).reverse

/-- `os.path.basename`. -/
def basename (p : String) : String := ⟨basenameL p.data⟩

/-- Head part of `posixpath.split`: everything up to and including the last
`/`, with trailing slashes stripped unless the head is empty or all slashes. -/
def dirnameL (l : List Char) : List Char :=
  let tail := basenameL l
  let head := l.take (l.length - tail.length)
  if head.any (fun c => !(c == '/')) then (head.reverse.dropWhile (fun c => c == '/')).reverse
  else head

/-- `os.path.dirname`. -/
def dirname (p : String) : String := ⟨dirnameL p.data⟩

/-- `posixpath.join` for two components, as used by `Config._lifeboat_path`. -/
def joinPath (a b : String) : String :=
  if b.data.head? = some '/' then b
  else if a = "" ∨ a.data.getLast? = some '/' then a ++ b
  else a ++ "/" ++ b

/-- `Config._lifeboat_path`: same directory, basename gains the
`lifeboat_<ts>_` prefix. -/
def lifeboatPath (p : String) (ts : Nat) : String :=
  joinPath (dirname p) ("lifeboat_" ++ toDecStr ts ++ "_" ++ basename p)

/-- Parse of the regex `^lifeboat_(\d+)_` against a basename, returning the
embedded timestamp (`Config.timestamp`). -/
def parseLifeboatTs (s : String) : Option Nat :=
  let l := s.data
  if l.take 9 = "lifeboat_".data then
    let rest := l.drop 9
    let ds := rest.takeWhile Char.isDigit
    if ds.isEmpty then none
    else match (rest.drop ds.length).head? with
      | some '_' => some (digitsToNat ds)
      | _ => none
  else none

/-- Whether a path's basename matches the lifeboat filename contract. -/
def isLifeboatName (p : String) : Bool := (parseLifeboatTs (basename p)).isSome

/-- One file of the modelled filesystem: a content addressed by a
`(root, path)` pair. -/
structure FsEntry where
  root : String
  path : String
  content : String
deriving DecidableEq, Repr

/-- The modelled filesystem: a finite map from `(root, path)` to contents. -/
structure Fs where
  entries : List FsEntry
deriving DecidableEq, Repr

/-- First entry for `(root, path)` in an entry list. -/
def fsFind : List FsEntry → String → String → Option String
  | [], _, _ => none
  | e :: rest, r, p =>
    if e.root = r ∧ e.path = p then some e.content else fsFind rest r p

/-- Entry list with every entry for `(root, path)` removed. -/
def fsRemove : List FsEntry → String → String → List FsEntry
  | [], _, _ => []
  | e :: rest, r, p =>
    if e.root = r ∧ e.path = p then fsRemove rest r p
    else e :: fsRemove rest r p

/-- Content stored at `(root, path)`, `none` when the file does not exist. -/
def Fs.get (fs : Fs) (r p : String) : Option String := fsFind fs.entries r p

/-- Create or overwrite the file at `(root, path)`. -/
def Fs.put (fs : Fs) (r p v : String) : Fs := ⟨⟨r, p, v⟩ :: fs.entries⟩

/-- Remove the file at `(root, path)` (no-op when absent, like the swallowed
`OSError` of `os.remove`). -/
def Fs.del (fs : Fs) (r p : String) : Fs := ⟨fsRemove fs.entries r p⟩

/-- The `Config` dataclass: descriptor metadata plus the ordered
multi-valued content fields. -/
structure Config where
  path : String
  root : String
  autosave : Bool := false
  is_default : Bool := false
  title : List String := []
  version : List String := []
  machine_id : List String := []
  sort_key : List String := []
  linux : List String := []
  initrd : List String := []
  efi : List String := []
  options : List String := []
  devicetree : List String := []
  devicetree_overlay : List String := []
  architecture : List String := []
deriving DecidableEq, Repr

/-- `Config.basename`. -/
def Config.basenameOf (c : Config) : String := basename c.path

/-- `Config.is_lifeboat`: the filename is the sole source of truth. -/
def Config.is_lifeboat (c : Config) : Bool := isLifeboatName c.path

/-- Total version of `Config.timestamp` (callers only use it on lifeboats). -/
def Config.timestampD (c : Config) : Nat := (parseLifeboatTs (basename c.path)).getD 0

/-- The files referenced by the three `FIELDS_WITH_FILES`, in the model's
fixed field order. -/
def Config.payloadFiles (c : Config) : List String := c.linux ++ c.initrd ++ c.efi

/-- Errors of the model; every Python exception escaping an operation is one
of these. -/
inductive Err where
  | badMaxLifeboats
  | defaultNotFound
  | defaultIsLifeboat
  | srcMissing
  | destExists
  | indexError
  | saveFailed
  | chrootError
deriving DecidableEq, Repr

instance {ε α : Type} [DecidableEq ε] [DecidableEq α] : DecidableEq (Except ε α) :=
  fun x y =>
    match x, y with
    | .ok a, .ok b =>
      if h : a = b then isTrue (by rw [h]) else isFalse (by intro hc; cases hc; exact h rfl)
    | .error a, .error b =>
      if h : a = b then isTrue (by rw [h]) else isFalse (by intro hc; cases hc; exact h rfl)
    | .ok _, .error _ => isFalse (by intro hc; cases hc)
    | .error _, .ok _ => isFalse (by intro hc; cases hc)

/-- Success of `Chroot.__enter__` for a target root from the rest state:
entering `/` is the skip branch and always succeeds, any other root needs
the open/chroot/chdir syscalls to succeed (`env`). -/
def chrootOk (env : String → Bool) (root : String) : Bool :=
  root == "/" || env root

/-- `Config._md5` under a given root: the digest is modelled by the content
itself (equal digests iff equal bytes).  A missing file is a digest failure
(`Md5Error`). -/
def md5 (fs : Fs) (root p : String) : Option String := fs.get root p

/-- Digests of a list of payload files; `none` as soon as one file cannot be
read, like the `Md5Error` escaping the set comprehension. -/
def md5All (fs : Fs) (root : String) : List String → Option (List String)
  | [] => some []
  | p :: rest =>
    match md5 fs root p, md5All fs root rest with
    | some v, some vs => some (v :: vs)
    | _, _ => none

/-- Python set equality of two digest collections. -/
def setEq (xs ys : List String) : Bool :=
  xs.all (fun x => ys.contains x) && ys.all (fun y => xs.contains y)

/-- Comparison of one `FIELDS_WITH_FILES` field inside `Config.equivalent`:
both sides are hashed under `root` (the source uses `self._md5`, hence
`self.root`, for `other`'s files as well); any `Md5Error` makes the whole
comparison `False`. -/
def digestsEq (fs : Fs) (root : String) (xs ys : List String) : Bool :=
  match md5All fs root xs, md5All fs root ys with
  | some da, some db => setEq da db
  | _, _ => false

/-- The literal comparisons of `Config.equivalent`: the fields of
`CONF_FIELDS - EQUIVALENCY_IGNORE_FIELDS` that are not `FIELDS_WITH_FILES`. -/
def literalsEq (a b : Config) : Bool :=
  a.machine_id == b.machine_id && a.sort_key == b.sort_key &&
  a.options == b.options && a.devicetree == b.devicetree &&
  a.devicetree_overlay == b.devicetree_overlay && a.architecture == b.architecture

/-- `Config.equivalent`.  `a` plays `self`: both digest sides resolve
against `a.root`. -/
def Config.equivalent (fs : Fs) (a b : Config) : Bool :=
  literalsEq a b && digestsEq fs a.root a.linux b.linux &&
  digestsEq fs a.root a.initrd b.initrd && digestsEq fs a.root a.efi b.efi

/-- Join with newlines, `'\n'.join`. -/
def joinLines : List String → String
  | [] => ""
  | [x] => x
  | x :: rest => x ++ "\n" ++ joinLines rest

/-- `Config.to_conf`: one `key<TAB>value` line per stored value, field names
with hyphens.  The source iterates `CONF_FIELDS` as a Python set; the model
fixes the declaration order. -/
def to_conf (c : Config) : String :=
  joinLines
    (c.title.map (fun v => "title\t" ++ v) ++
     c.version.map (fun v => "version\t" ++ v) ++
     c.machine_id.map (fun v => "machine-id\t" ++ v) ++
     c.sort_key.map (fun v => "sort-key\t" ++ v) ++
     c.linux.map (fun v => "linux\t" ++ v) ++
     c.initrd.map (fun v => "initrd\t" ++ v) ++
     c.efi.map (fun v => "efi\t" ++ v) ++
     c.options.map (fun v => "options\t" ++ v) ++
     c.devicetree.map (fun v => "devicetree\t" ++ v) ++
     c.devicetree_overlay.map (fun v => "devicetree-overlay\t" ++ v) ++
     c.architecture.map (fun v => "architecture\t" ++ v))

/-- `Config.write`.  The descriptor is opened under root `/` with mode `'w'`
when `autosave` else `'x'`.  The `open` itself runs before the `DRY_RUN`
check, so even a dry run creates the file, truncated to empty; mode `'x'`
fails when the file exists (wrapped into `LifeboatError`). -/
def Config.write (dry : Bool) (fs : Fs) (c : Config) : Except Err Fs :=
  if c.autosave then .ok (fs.put "/" c.path (if dry then "" else to_conf c))
  else match fs.get "/" c.path with
    | some _ => .error .saveFailed
    | none => .ok (fs.put "/" c.path (if dry then "" else to_conf c))

/-- `copy_file`: source must exist, destination must not, both checked before
the `DRY_RUN` early return; the copy preserves the bytes. -/
def copy_file (dry : Bool) (root src dest : String) (fs : Fs) : Except Err Fs :=
  match fs.get root src with
  | none => .error .srcMissing
  | some v =>
    match fs.get root dest with
    | some _ => .error .destExists
    | none => if dry then .ok fs else .ok (fs.put root dest v)

/-- The copy loop of `Config.create_lifeboat`: each payload file is copied to
its `lifeboat_<ts>_` sibling, inside `Chroot(self.root)`. -/
def copyAll (dry : Bool) (root : String) (ts : Nat) : List String → Fs → Except Err Fs
  | [], fs => .ok fs
  | s :: rest, fs =>
    match copy_file dry root s (lifeboatPath s ts) fs with
    | .error e => .error e
    | .ok fs1 => copyAll dry root ts rest fs1

/-- Human-readable timestamp used in lifeboat titles
(`pretty_date` / `strftime`); the platform rendering is modelled by the
decimal timestamp.  No claim inspects the rendered title. -/
def prettyDate (ts : Nat) : String := toDecStr ts

/-- `Config.create_lifeboat`: copy every payload file, then build the
replacement record (lifeboat path, decorated title, `-<version>-<ts>`
version) whose `autosave=True` triggers `Config.write`.  Any failure inside
the `FileTracker` scope rolls the copies back and re-raises; the model
returns the error (the post-error filesystem is examined only through the
`FileTracker` model below).  Accessing `self.version[0]` on an empty
sequence is the `IndexError` case. -/
def Config.create_lifeboat (env : String → Bool) (dry : Bool) (fs : Fs)
    (c : Config) (ts : Nat) : Except Err (Config × Fs) :=
  if chrootOk env c.root then
    match copyAll dry c.root ts c.payloadFiles fs with
    | .error e => .error e
    | .ok fs1 =>
      match c.version with
      | [] => .error .indexError
      | v :: _ =>
        let t := match c.title with
          | [] => basename c.path
          | t0 :: _ => t0
        let nc : Config := { c with
          path := lifeboatPath c.path ts,
          title := [t ++ " @" ++ prettyDate ts],
          version := ["-" ++ v ++ "-" ++ toDecStr ts],
          autosave := true,
          linux := c.linux.map (fun s => lifeboatPath s ts),
          initrd := c.initrd.map (fun s => lifeboatPath s ts),
          efi := c.efi.map (fun s => lifeboatPath s ts) }
        match nc.write dry fs1 with
        | .error e => .error e
        | .ok fs2 => .ok (nc, fs2)
  else .error .chrootError

/-- `delete_file`: refuses an empty path before any chroot, enters the root,
honours `DRY_RUN`, and swallows `OSError` from `os.remove` (deleting a
missing file succeeds).  The only escaping error is the chroot failure. -/
def delete_file (env : String → Bool) (dry : Bool) (root filepath : String)
    (fs : Fs) : Except Err Fs :=
  if filepath = "" then .ok fs
  else if chrootOk env root then
    if dry then .ok fs else .ok (fs.del root filepath)
  else .error .chrootError

/-- Sequential deletion of several files under one root. -/
def deleteList (env : String → Bool) (dry : Bool) (root : String) :
    List String → Fs → Except Err Fs
  | [], fs => .ok fs
  | p :: rest, fs =>
    match delete_file env dry root p fs with
    | .error e => .error e
    | .ok fs1 => deleteList env dry root rest fs1

/-- `Config.remove`: payload files under the entry's root, then the
descriptor under `/`. -/
def removeCfg (env : String → Bool) (dry : Bool) (x : Config) (fs : Fs) :
    Except Err Fs :=
  match deleteList env dry x.root x.payloadFiles fs with
  | .error e => .error e
  | .ok fs1 => delete_file env dry "/" x.path fs1

/-- `Config.__lt__`: timestamps for two lifeboats, a lifeboat is never below
a non-lifeboat, otherwise path order. -/
def pyLt (a b : Config) : Bool :=
  if a.is_lifeboat && b.is_lifeboat then a.timestampD < b.timestampD
  else if a.is_lifeboat && !b.is_lifeboat then false
  else a.path < b.path

/-- Stable ascending insertion: `x` goes after every element strictly below
it, matching the ordering CPython's stable sort produces with `__lt__`. -/
def pyInsertAsc (x : Config) : List Config → List Config
  | [] => [x]
  | y :: ys => if pyLt y x then y :: pyInsertAsc x ys else x :: y :: ys

/-- Stable ascending sort. -/
def pySortAsc : List Config → List Config
  | [] => []
  | x :: xs => pyInsertAsc x (pySortAsc xs)

/-- `list.sort(reverse=True)`: CPython reverses, sorts ascending (stable),
and reverses again, giving a stable descending order. -/
def sortDesc (l : List Config) : List Config := (pySortAsc l.reverse).reverse

/-- Result of one completed retention run. -/
structure RunResult where
  fs : Fs
  lifeboats : List Config
  created : Option Config
  evicted : List Config
  defaultCfg : Config
deriving DecidableEq, Repr

/-- Fuelled body of the eviction loop; each iteration shortens the list by
one, so `l.length` fuel is exact. -/
def evictGo (env : String → Bool) (dry : Bool) (maxN : Nat) :
    Nat → List Config → Fs → List Config → Except Err (List Config × Fs × List Config)
  | 0, l, fs, acc => .ok (l, fs, acc)
  | fuel + 1, l, fs, acc =>
    if h : maxN ≤ l.length ∧ l ≠ [] then
      match removeCfg env dry (l.getLast h.2) fs with
      | .error e => .error e
      | .ok fs1 => evictGo env dry maxN fuel l.dropLast fs1 (acc ++ [l.getLast h.2])
    else .ok (l, fs, acc)

/-- The eviction loop of `main`: while the lifeboat list (sorted newest
first) still has at least `maxN` members, pop the last (oldest) one and
remove its files. -/
def evict (env : String → Bool) (dry : Bool) (maxN : Nat)
    (l : List Config) (fs : Fs) (acc : List Config) :
    Except Err (List Config × Fs × List Config) :=
  evictGo env dry maxN l.length l fs acc

/-- The `dc.replace(..., autosave=True)` defaulting steps of `main`: a
missing `sort_key` and a missing `version` are filled in and each
replacement's `__post_init__` rewrites the descriptor. -/
def applyDefaults (dry : Bool) (dsk dv : String) (d0 : Config) (fs : Fs) :
    Except Err (Config × Fs) :=
  let d1 := if d0.sort_key.isEmpty then
    { d0 with sort_key := [dsk], autosave := true } else d0
  match (if d0.sort_key.isEmpty then d1.write dry fs else .ok fs) with
  | .error e => .error e
  | .ok fs1 =>
    let d2 := if d1.version.isEmpty then
      { d1 with version := [dv], autosave := true } else d1
    match (if d1.version.isEmpty then d2.write dry fs1 else .ok fs1) with
    | .error e => .error e
    | .ok fs2 => .ok (d2, fs2)

/-- `main` with an explicit `default_config_path` (resolving the boot
manager's default is an external collaborator).  `configs` is the external
enumerator's output, `ts` the value of `now()` for this run. -/
def runRetention (env : String → Bool) (dry : Bool) (dsk dv : String)
    (maxL : Int) (configs : List Config) (dcp : String) (ts : Nat)
    (fs : Fs) : Except Err RunResult :=
  if maxL < 1 then .error .badMaxLifeboats
  else match configs.find? (fun x => x.path == dcp) with
    | none => .error .defaultNotFound
    | some d0 =>
      if d0.is_lifeboat then .error .defaultIsLifeboat
      else
        match applyDefaults dry dsk dv d0 fs with
        | .error e => .error e
        | .ok (d2, fs2) =>
          match (sortDesc (configs.filter (fun x => x.is_lifeboat))).find?
              (fun x => Config.equivalent fs2 x d2) with
          | some _ => .ok ⟨fs2, sortDesc (configs.filter (fun x => x.is_lifeboat)), none, [], d2⟩
          | none =>
            match evict env dry maxL.toNat
                (sortDesc (configs.filter (fun x => x.is_lifeboat))) fs2 [] with
            | .error e => .error e
            | .ok (surv, fs3, ev) =>
              match Config.create_lifeboat env dry fs3 d2 ts with
              | .error e => .error e
              | .ok (c, fs4) => .ok ⟨fs4, surv, some c, ev, d2⟩

/-- A file recorded by `FileTracker.track`, with the root that was active at
that moment. -/
structure TrackedFile where
  path : String
  root : String
deriving DecidableEq, Repr

/-- Python exception classes as seen by `FileTracker.__exit__`. -/
inductive PyExc where
  | chrootExc
  | otherExc
deriving DecidableEq, Repr

/-- The rollback loop of `FileTracker.__exit__`: each tracked file is deleted
against its captured root; an error from `delete_file` (a chroot failure)
propagates and abandons the rest. -/
def rollback (env : String → Bool) (dry : Bool) :
    List TrackedFile → Fs → Except Err Fs
  | [], fs => .ok fs
  | f :: rest, fs =>
    match delete_file env dry f.root f.path fs with
    | .error e => .error e
    | .ok fs1 => rollback env dry rest fs1

/-- `FileTracker.__exit__`: rollback only on an escaping error that is not a
`ChrootError`. -/
def trackerExit (env : String → Bool) (dry : Bool) (exc : Option PyExc)
    (files : List TrackedFile) (fs : Fs) : Except Err Fs :=
  match exc with
  | none => .ok fs
  | some e => if e = .chrootExc then .ok fs else rollback env dry files fs

lemma Fs.get_put_same (fs : Fs) (r p v : String) : (fs.put r p v).get r p = some v := by
  simp [Fs.get, Fs.put, fsFind]

lemma Fs.get_put_ne (fs : Fs) (r p v r' p' : String) (h : ¬(r' = r ∧ p' = p)) :
    (fs.put r p v).get r' p' = fs.get r' p' := by
  have : ¬(r = r' ∧ p = p') := fun ⟨h1, h2⟩ => h ⟨h1.symm, h2.symm⟩
  simp [Fs.get, Fs.put, fsFind, this]

lemma Fs.get_del (fs : Fs) (r p r' p' : String) :
    (fs.del r p).get r' p' =
      if r' = r ∧ p' = p then none else fs.get r' p' := by
  simp only [Fs.get, Fs.del]
  induction fs.entries with
  | nil => simp [fsFind, fsRemove]
  | cons e rest ih =>
    by_cases he : e.root = r ∧ e.path = p
    · by_cases hq : r' = r ∧ p' = p
      · simp only [fsRemove, if_pos he, ih, if_pos hq]
      · have : ¬(e.root = r' ∧ e.path = p') := by
          rintro ⟨h1, h2⟩
          exact hq ⟨h1 ▸ he.1, h2 ▸ he.2⟩
        simp only [fsRemove, if_pos he, ih, if_neg hq, fsFind, if_neg this]
    · by_cases hq : e.root = r' ∧ e.path = p'
      · have hne : ¬(r' = r ∧ p' = p) := by
          rintro ⟨h1, h2⟩
          exact he ⟨hq.1.trans h1, hq.2.trans h2⟩
        simp only [fsRemove, if_neg he, fsFind, if_pos hq, if_neg hne]
      · simp only [fsRemove, if_neg he, fsFind, if_neg hq, ih]

lemma str_data_append (s t : String) : (s ++ t).data = s.data ++ t.data := rfl

lemma takeWhile_append_all {p : Char → Bool} (as bs : List Char)
    (h : ∀ c ∈ as, p c = true) :
    (as ++ bs).takeWhile p = as ++ bs.takeWhile p := by
  induction as with
  | nil => simp
  | cons a tl ih =>
    have ha := h a (by simp)
    simp only [List.cons_append, List.takeWhile_cons, ha, if_true]
    rw [ih (fun c hc => h c (by simp [hc]))]

lemma natToDigitsAux_congr : ∀ (n fuel1 fuel2 : Nat), n < fuel1 → n < fuel2 →
    natToDigitsAux fuel1 n = natToDigitsAux fuel2 n := by
  intro n
  induction n using Nat.strong_induction_on with
  | _ n ih =>
    intro fuel1 fuel2 h1 h2
    match fuel1, fuel2 with
    | f1 + 1, f2 + 1 =>
      by_cases hn : n < 10
      · simp [natToDigitsAux, hn]
      · have hd : n / 10 < n := Nat.div_lt_self (by omega) (by omega)
        simp only [natToDigitsAux, if_neg hn]
        rw [ih (n / 10) hd f1 (n / 10 + 1) (by omega) (by omega),
          ih (n / 10) hd f2 (n / 10 + 1) (by omega) (by omega)]

lemma natToDigits_eq (n : Nat) : natToDigits n =
    if n < 10 then [digitChar n] else natToDigits (n / 10) ++ [digitChar (n % 10)] := by
  show natToDigitsAux (n + 1) n = _
  by_cases hn : n < 10
  · simp [natToDigitsAux, hn]
  · have hd : n / 10 < n := Nat.div_lt_self (by omega) (by omega)
    simp only [natToDigitsAux, if_neg hn]
    rw [natToDigitsAux_congr (n / 10) n (n / 10 + 1) (by omega) (by omega)]
    rfl

lemma natToDigits_ne_nil (n : Nat) : natToDigits n ≠ [] := by
  rw [natToDigits_eq]; split <;> simp

lemma digitChar_isDigit (n : Nat) : (digitChar n).isDigit = true := by
  unfold digitChar; split <;> decide

lemma natToDigits_all_digits : ∀ n : Nat, ∀ c ∈ natToDigits n, c.isDigit = true := by
  intro n
  induction n using Nat.strong_induction_on with
  | _ n ih =>
    rw [natToDigits_eq]
    split
    · intro c hc
      simp only [List.mem_singleton] at hc
      subst hc; exact digitChar_isDigit n
    · intro c hc
      rcases List.mem_append.mp hc with h | h
      · exact ih (n / 10) (Nat.div_lt_self (by omega) (by omega)) c h
      · simp only [List.mem_singleton] at h
        subst h; exact digitChar_isDigit _

lemma digitChar_toNat (n : Nat) (h : n < 10) : (digitChar n).toNat = 48 + n := by
  interval_cases n <;> rfl

lemma digitsToNat_append (l : List Char) (c : Char) :
    digitsToNat (l ++ [c]) = digitsToNat l * 10 + (c.toNat - 48) := by
  simp [digitsToNat, List.foldl_append]

lemma digitsToNat_natToDigits (n : Nat) : digitsToNat (natToDigits n) = n := by
  induction n using Nat.strong_induction_on with
  | _ n ih =>
    rw [natToDigits_eq]
    split
    · next h =>
      show digitsToNat [digitChar n] = n
      simp [digitsToNat, digitChar_toNat n h]
    · next h =>
      rw [digitsToNat_append, ih (n / 10) (Nat.div_lt_self (by omega) (by omega)),
        digitChar_toNat (n % 10) (Nat.mod_lt _ (by omega))]
      omega

lemma basenameL_slashfree (l : List Char) : ∀ c ∈ basenameL l, (c == '/') = false := by
  intro c hc
  unfold basenameL at hc
  rw [List.mem_reverse] at hc
  have := List.mem_takeWhile_imp hc
  simpa using this

lemma basenameL_append (xs ys : List Char)
    (hys : ∀ c ∈ ys, (c == '/') = false)
    (hxs : xs = [] ∨ ∃ xs', xs = xs' ++ ['/']) :
    basenameL (xs ++ ys) = ys := by
  unfold basenameL
  rw [List.reverse_append,
    takeWhile_append_all _ _ (fun c hc => by
      rw [List.mem_reverse] at hc; simp [hys c hc])]
  rcases hxs with rfl | ⟨xs', rfl⟩
  · simp
  · rw [List.reverse_append]
    simp [List.takeWhile_cons]

lemma exists_concat_of_getLast? :
    ∀ (l : List Char) (x : Char), l.getLast? = some x → ∃ l', l = l' ++ [x]
  | [], x, h => by simp at h
  | [a], x, h => by
    simp only [List.getLast?_singleton, Option.some_inj] at h
    exact ⟨[], by simp [h]⟩
  | a :: b :: tl, x, h => by
    rw [List.getLast?_cons_cons] at h
    obtain ⟨l', hl⟩ := exists_concat_of_getLast? (b :: tl) x h
    exact ⟨a :: l', by simp [hl]⟩

lemma basename_joinPath (a nm : String) (h1 : ∀ c ∈ nm.data, (c == '/') = false) :
    basename (joinPath a nm) = nm := by
  have h2 : ¬ nm.data.head? = some '/' := by
    intro h
    have hmem : '/' ∈ nm.data := by
      cases hd : nm.data with
      | nil => rw [hd] at h; simp at h
      | cons c tl =>
        rw [hd] at h
        simp only [List.head?_cons, Option.some_inj] at h
        simp [h]
    exact absurd (h1 '/' hmem) (by simp)
  unfold joinPath
  rw [if_neg h2]
  by_cases ha : a = "" ∨ a.data.getLast? = some '/'
  · rw [if_pos ha]
    show (⟨basenameL (a ++ nm).data⟩ : String) = nm
    rw [str_data_append, basenameL_append _ _ h1 ?_]
    rcases ha with rfl | hl
    · exact Or.inl rfl
    · exact Or.inr (exists_concat_of_getLast? _ _ hl)
  · rw [if_neg ha]
    show (⟨basenameL (a ++ "/" ++ nm).data⟩ : String) = nm
    have : (a ++ "/" ++ nm).data = (a.data ++ ['/']) ++ nm.data := rfl
    rw [this, basenameL_append _ _ h1 (Or.inr ⟨a.data, rfl⟩)]

lemma digit_ne_slash (c : Char) (h : c.isDigit = true) : (c == '/') = false := by
  cases hb : c == '/'
  · rfl
  · exact absurd h (by rw [eq_of_beq hb]; decide)

lemma lifeboat_name_data (p : String) (ts : Nat) :
    ("lifeboat_" ++ toDecStr ts ++ "_" ++ basename p).data
      = "lifeboat_".data ++ (natToDigits ts ++ '_' :: (basename p).data) := by
  show ((("lifeboat_" ++ toDecStr ts) ++ "_") ++ basename p).data = _
  simp [str_data_append, toDecStr]

lemma lifeboat_name_slashfree (p : String) (ts : Nat) :
    ∀ c ∈ ("lifeboat_" ++ toDecStr ts ++ "_" ++ basename p).data, (c == '/') = false := by
  intro c hc
  rw [lifeboat_name_data] at hc
  rcases List.mem_append.mp hc with h | h
  · exact (by decide : ∀ c ∈ "lifeboat_".data, (c == '/') = false) c h
  · rcases List.mem_append.mp h with h | h
    · exact digit_ne_slash c (natToDigits_all_digits ts c h)
    · rcases List.mem_cons.mp h with rfl | h
      · decide
      · exact basenameL_slashfree p.data c h

lemma basename_lifeboatPath (p : String) (ts : Nat) :
    basename (lifeboatPath p ts) = "lifeboat_" ++ toDecStr ts ++ "_" ++ basename p :=
  basename_joinPath _ _ (lifeboat_name_slashfree p ts)

lemma parse_lifeboat_name (ts : Nat) (tail : String) :
    parseLifeboatTs ("lifeboat_" ++ toDecStr ts ++ "_" ++ tail) = some ts := by
  unfold parseLifeboatTs
  have hdata : ("lifeboat_" ++ toDecStr ts ++ "_" ++ tail).data
      = "lifeboat_".data ++ (natToDigits ts ++ '_' :: tail.data) := by
    show ((("lifeboat_" ++ toDecStr ts) ++ "_") ++ tail).data = _
    simp [str_data_append, toDecStr]
  simp only [hdata]
  rw [show (9 : Nat) = ("lifeboat_".data).length from rfl, List.take_left, List.drop_left,
    if_pos rfl,
    takeWhile_append_all _ _ (natToDigits_all_digits ts)]
  have htw : ('_' :: tail.data).takeWhile Char.isDigit = [] := by
    simp [List.takeWhile_cons]
  rw [htw, List.append_nil]
  have hne : (natToDigits ts).isEmpty = false := by
    cases h : (natToDigits ts).isEmpty
    · rfl
    · exact absurd (List.isEmpty_iff.mp h) (natToDigits_ne_nil ts)
  rw [if_neg (by simp [hne]), List.drop_left]
  simp [digitsToNat_natToDigits]

lemma isLifeboatName_lifeboatPath (p : String) (ts : Nat) :
    isLifeboatName (lifeboatPath p ts) = true := by
  unfold isLifeboatName
  rw [basename_lifeboatPath, parse_lifeboat_name]
  rfl

lemma parseTs_lifeboatPath (p : String) (ts : Nat) :
    parseLifeboatTs (basename (lifeboatPath p ts)) = some ts := by
  rw [basename_lifeboatPath, parse_lifeboat_name]

lemma lifeboatPath_ne_self (p : String) (ts : Nat) : lifeboatPath p ts ≠ p := by
  intro h
  have hb := basename_lifeboatPath p ts
  rw [h] at hb
  have hlen := congrArg String.length hb
  rw [String.length_append, String.length_append, String.length_append] at hlen
  have h9 : ("lifeboat_" : String).length = 9 := rfl
  have h1 : ("_" : String).length = 1 := rfl
  omega

lemma is_lifeboat_congr_path (x y : Config) (h : x.path = y.path) :
    x.is_lifeboat = y.is_lifeboat := by
  simp [Config.is_lifeboat, h]

/-- Modelled from the spec: characters the boot loader's version ordering
recognises.  The comparison rule itself ("the boot loader's own
dotted/lexicographic version-ordering rule", systemd Boot Loader
Specification, `strverscmp_improved`) is external to `src/`; only the
`https://systemd.io/BOOT_LOADER_SPECIFICATION/#version-order` reference in
`Config.create_lifeboat` names it. -/
def validVerChar (c : Char) : Bool :=
  c.isAlphanum || c == '~' || c == '-' || c == '^' || c == '.'

/-- Modelled from the spec: skip characters the version ordering ignores. -/
def dropInvalid (l : List Char) : List Char := l.dropWhile (fun c => !validVerChar c)

/-- Three-way comparison of naturals. -/
def cmpInt (x y : Nat) : Int := if x < y then -1 else if y < x then 1 else 0

/-- Lexicographic three-way comparison of character lists (shorter prefix
sorts first). -/
def cmpLex : List Char → List Char → Int
  | [], [] => 0
  | [], _ :: _ => -1
  | _ :: _, [] => 1
  | a :: as, b :: bs =>
    if a.toNat < b.toNat then -1 else if b.toNat < a.toNat then 1 else cmpLex as bs

/-- Modelled from the spec: one fuelled pass of the boot loader's version
comparison (`strverscmp_improved`).  `~` sorts below everything including
string end; end sorts below everything else; then `-`, `^`, `.` in that
order; numeric segments compare numerically and sort above alphabetic
segments, which compare lexicographically.  Each iteration consumes at
least one character from each side, so `|a| + |b| + 1` fuel is exact. -/
def verCmpGo : Nat → List Char → List Char → Int
  | 0, _, _ => 0
  | n + 1, a0, b0 =>
    match dropInvalid a0, dropInvalid b0 with
    | [], [] => 0
    | [], y :: _ => if y == '~' then 1 else -1
    | x :: _, [] => if x == '~' then -1 else 1
    | x :: xs, y :: ys =>
      if x == '~' || y == '~' then
        if x == '~' && y == '~' then verCmpGo n xs ys
        else if x == '~' then -1 else 1
      else if x == '-' || y == '-' then
        if x == '-' && y == '-' then verCmpGo n xs ys
        else if x == '-' then -1 else 1
      else if x == '^' || y == '^' then
        if x == '^' && y == '^' then verCmpGo n xs ys
        else if x == '^' then -1 else 1
      else if x == '.' || y == '.' then
        if x == '.' && y == '.' then verCmpGo n xs ys
        else if x == '.' then -1 else 1
      else if x.isDigit || y.isDigit then
        let da := (x :: xs).takeWhile Char.isDigit
        let db := (y :: ys).takeWhile Char.isDigit
        if da.isEmpty then -1
        else if db.isEmpty then 1
        else if digitsToNat da = digitsToNat db then
          verCmpGo n ((x :: xs).drop da.length) ((y :: ys).drop db.length)
        else cmpInt (digitsToNat da) (digitsToNat db)
      else
        let la := (x :: xs).takeWhile Char.isAlpha
        let lb := (y :: ys).takeWhile Char.isAlpha
        if cmpLex la lb = 0 then
          verCmpGo n ((x :: xs).drop la.length) ((y :: ys).drop lb.length)
        else cmpLex la lb

/-- Modelled from the spec: the boot loader's version ordering; negative
means the first version sorts strictly below the second. -/
def verCmpStr (a b : String) : Int :=
  verCmpGo (a.data.length + b.data.length + 1) a.data b.data

/-- A version string whose first ordering-relevant character is a letter, a
digit, `^` or `.` (so neither `~`, `-`, nor effectively empty). -/
def goodVerHead (v : String) : Bool :=
  match dropInvalid v.data with
  | [] => false
  | h :: _ => h.isAlphanum || h == '^' || h == '.'

lemma verCmpGo_dash_lt (n : Nat) (A v : List Char) (h : Char) (t : List Char)
    (hdropV : dropInvalid v = h :: t)
    (hgood : (h.isAlphanum || h == '^' || h == '.') = true) :
    verCmpGo (n + 1) ('-' :: A) v = -1 := by
  have hdropA : dropInvalid ('-' :: A) = '-' :: A := by
    simp [dropInvalid, List.dropWhile_cons, validVerChar]
  have h1 : (h == '~') = false := by
    cases hb : h == '~'
    · rfl
    · rw [eq_of_beq hb] at hgood; exact absurd hgood (by decide)
  have h2 : (h == '-') = false := by
    cases hb : h == '-'
    · rfl
    · rw [eq_of_beq hb] at hgood; exact absurd hgood (by decide)
  unfold verCmpGo
  rw [hdropA, hdropV]
  simp [h1, h2]

lemma verCmpStr_dash_lt (v : String) (tail : String)
    (hgood : goodVerHead v = true) :
    verCmpStr ("-" ++ v ++ tail) v = -1 := by
  have hdata : ("-" ++ v ++ tail).data = '-' :: (v.data ++ tail.data) := rfl
  unfold verCmpStr goodVerHead at *
  rw [hdata]
  cases hdropV : dropInvalid v.data with
  | nil => rw [hdropV] at hgood; simp at hgood
  | cons h t =>
    rw [hdropV] at hgood
    exact verCmpGo_dash_lt _ _ _ h t hdropV hgood

/-- C7: `main` only raises for `max_lifeboats < 1`, so `max_lifeboats = 1` is
accepted and the run proceeds (here: all the way to creating a lifeboat),
although the guard's own error message and the spec demand an integer
greater than 1; `0` is rejected as expected. -/
theorem c7_guard_accepts_one :
    (runRetention (fun _ => true) false "k" "v" 1
      [{ path := "e/arch.conf", root := "/", sort_key := ["k"], version := ["1"] }]
      "e/arch.conf" 7 ⟨[⟨"/", "e/arch.conf", "CONF"⟩]⟩).isOk = true
    ∧ runRetention (fun _ => true) false "k" "v" 0
      [{ path := "e/arch.conf", root := "/", sort_key := ["k"], version := ["1"] }]
      "e/arch.conf" 7 ⟨[⟨"/", "e/arch.conf", "CONF"⟩]⟩ = .error Err.badMaxLifeboats := by
  exact ⟨by decide, by decide⟩

/-- C10: `delete_file` returns normally on an empty path (filesystem
untouched), returns normally whenever the chroot succeeds (even when the
target file is absent, since the `OSError` of `os.remove` is swallowed), and
the only error it can propagate is the failure to switch into the given
root. -/
theorem c10_delete_file (env : String → Bool) (dry : Bool) (root p : String) (fs : Fs) :
    (p = "" → delete_file env dry root p fs = .ok fs)
    ∧ (chrootOk env root = true → ∃ fs2, delete_file env dry root p fs = .ok fs2)
    ∧ (∀ e, delete_file env dry root p fs = .error e →
        e = Err.chrootError ∧ p ≠ "" ∧ chrootOk env root = false) := by
  refine ⟨fun hp => by simp [delete_file, hp], fun hc => ?_, fun e he => ?_⟩
  · by_cases hp : p = ""
    · exact ⟨fs, by simp [delete_file, hp]⟩
    · cases dry
      · exact ⟨fs.del root p, by simp [delete_file, hp, hc]⟩
      · exact ⟨fs, by simp [delete_file, hp, hc]⟩
  · by_cases hp : p = ""
    · simp [delete_file, hp] at he
    · cases hc : chrootOk env root
      · refine ⟨?_, hp, rfl⟩
        simp only [delete_file, if_neg hp, hc, Bool.false_eq_true, if_false] at he
        cases he
        rfl
      · cases dry <;> simp [delete_file, hp, hc] at he

theorem c10_delete_file_witness :
    delete_file (fun _ => false) false "r" "" ⟨[]⟩ = .ok ⟨[]⟩ :=
  (c10_delete_file (fun _ => false) false "r" "" ⟨[]⟩).1 rfl

lemma rollback_none (env : String → Bool) (dry : Bool) :
    ∀ (files : List TrackedFile) (fs fs2 : Fs) (r p : String),
      rollback env dry files fs = .ok fs2 → fs.get r p = none → fs2.get r p = none
  | [], fs, fs2, r, p, h, h0 => by
    simp only [rollback] at h
    cases h; exact h0
  | f :: rest, fs, fs2, r, p, h, h0 => by
    simp only [rollback] at h
    cases hd : delete_file env dry f.root f.path fs with
    | error e => rw [hd] at h; cases h
    | ok fs1 =>
      rw [hd] at h
      refine rollback_none env dry rest fs1 fs2 r p h ?_
      by_cases hp : f.path = ""
      · simp only [delete_file, if_pos hp] at hd
        cases hd; exact h0
      · cases hc : chrootOk env f.root
        · simp [delete_file, hp, hc] at hd
        · cases dry
          · simp only [delete_file, if_neg hp, hc, if_true, if_false, Bool.false_eq_true] at hd
            cases hd
            rw [Fs.get_del]
            split
            · rfl
            · exact h0
          · simp only [delete_file, if_neg hp, hc, if_true] at hd
            cases hd; exact h0

lemma rollback_ok (env : String → Bool) :
    ∀ (files : List TrackedFile) (fs : Fs),
      (∀ f ∈ files, chrootOk env f.root = true) →
      ∃ fs2, rollback env false files fs = .ok fs2
        ∧ ∀ f ∈ files, f.path ≠ "" → fs2.get f.root f.path = none
  | [], fs, _ => ⟨fs, rfl, by simp⟩
  | f :: rest, fs, hroots => by
    have hc : chrootOk env f.root = true := hroots f (by simp)
    by_cases hp : f.path = ""
    · obtain ⟨fs2, hr, hdel⟩ := rollback_ok env rest fs
        (fun g hg => hroots g (by simp [hg]))
      refine ⟨fs2, ?_, ?_⟩
      · simp only [rollback, delete_file, if_pos hp]
        exact hr
      · intro g hg hgp
        rcases List.mem_cons.mp hg with rfl | hg
        · exact absurd hp hgp
        · exact hdel g hg hgp
    · obtain ⟨fs2, hr, hdel⟩ := rollback_ok env rest (fs.del f.root f.path)
        (fun g hg => hroots g (by simp [hg]))
      refine ⟨fs2, ?_, ?_⟩
      · simp only [rollback, delete_file, if_neg hp, hc, if_true]
        exact hr
      · intro g hg hgp
        rcases List.mem_cons.mp hg with rfl | hg
        · refine rollback_none env false rest _ fs2 g.root g.path hr ?_
          rw [Fs.get_del, if_pos ⟨rfl, rfl⟩]
        · exact hdel g hg hgp

/-- C6 counterexample: an error that is not a `ChrootError` escapes a
tracker scope holding one file whose captured root cannot be re-entered;
the rollback itself then raises a `ChrootError` out of `delete_file`
instead of completing silently, contradicting the claim that the rollback
never raises. -/
theorem c6_counterexample :
    trackerExit (fun _ => false) false (some PyExc.otherExc)
      [⟨"f", "badroot"⟩] ⟨[]⟩ = .error Err.chrootError := by decide

/-- C6 amended: on a non-`ChrootError` escaping the scope, and provided
every tracked file's captured root can be re-entered, the rollback
completes without raising and deletes every tracked file (empty tracked
paths are refused by `delete_file`, and `os.remove` failures are
swallowed); if the escaping error is a `ChrootError`, no deletion is
attempted and the filesystem is untouched.  If some captured root cannot
be re-entered, the rollback itself raises (see the counterexample). -/
theorem c6_tracker_rollback (env : String → Bool) (files : List TrackedFile) (fs : Fs)
    (hroots : ∀ f ∈ files, chrootOk env f.root = true) :
    (∀ e, e ≠ PyExc.chrootExc →
      ∃ fs2, trackerExit env false (some e) files fs = .ok fs2
        ∧ ∀ f ∈ files, f.path ≠ "" → fs2.get f.root f.path = none)
    ∧ trackerExit env false (some PyExc.chrootExc) files fs = .ok fs := by
  constructor
  · intro e he
    obtain ⟨fs2, hr, hdel⟩ := rollback_ok env files fs hroots
    exact ⟨fs2, by simp only [trackerExit, if_neg he]; exact hr, hdel⟩
  · simp [trackerExit]

theorem c6_tracker_rollback_witness :
    trackerExit (fun _ => true) false (some PyExc.chrootExc) [⟨"p", "r"⟩] ⟨[]⟩
      = .ok ⟨[]⟩ :=
  (c6_tracker_rollback (fun _ => true) [⟨"p", "r"⟩] ⟨[]⟩ (by decide)).2

lemma setEq_comm (xs ys : List String) : setEq xs ys = setEq ys xs := by
  simp [setEq, Bool.and_comm]

lemma digestsEq_comm (fs : Fs) (root : String) (xs ys : List String) :
    digestsEq fs root xs ys = digestsEq fs root ys xs := by
  unfold digestsEq
  cases md5All fs root xs <;> cases md5All fs root ys <;> simp [setEq_comm]

lemma beqListComm (xs ys : List String) : (xs == ys) = (ys == xs) := by
  by_cases h : xs = ys
  · subst h; rfl
  · rw [beq_false_of_ne h, beq_false_of_ne (Ne.symm h)]

lemma literalsEq_comm (a b : Config) : literalsEq a b = literalsEq b a := by
  unfold literalsEq
  rw [beqListComm a.machine_id, beqListComm a.sort_key, beqListComm a.options,
    beqListComm a.devicetree, beqListComm a.devicetree_overlay,
    beqListComm a.architecture]

/-- C3 counterexample: two entries under different filesystem roots whose
single `efi` payload files hash equal under the first root but different
under the second (`Config._md5` always resolves both sides against
`self.root`): `equivalent(A, B)` is `True` while `equivalent(B, A)` is
`False`. -/
theorem c3_counterexample :
    Config.equivalent ⟨[⟨"r1", "f", "x"⟩, ⟨"r1", "g", "x"⟩, ⟨"r2", "f", "x"⟩, ⟨"r2", "g", "y"⟩]⟩
      { path := "a.conf", root := "r1", efi := ["f"] }
      { path := "b.conf", root := "r2", efi := ["g"] } = true
    ∧ Config.equivalent ⟨[⟨"r1", "f", "x"⟩, ⟨"r1", "g", "x"⟩, ⟨"r2", "f", "x"⟩, ⟨"r2", "g", "y"⟩]⟩
      { path := "b.conf", root := "r2", efi := ["g"] }
      { path := "a.conf", root := "r1", efi := ["f"] } = false := by
  exact ⟨by decide, by decide⟩

/-- C3 amended: for entries with the same filesystem root,
`equivalent(A, B)` and `equivalent(B, A)` agree: the literal field
comparisons are symmetric and the payload digest comparison is a set
comparison under the one shared root.  (With different roots the digests
are taken under `self.root` on both sides, and symmetry fails; see the
counterexample.) -/
theorem c3_equivalent_symm_same_root (fs : Fs) (a b : Config) (h : a.root = b.root) :
    Config.equivalent fs a b = Config.equivalent fs b a := by
  unfold Config.equivalent
  rw [h, literalsEq_comm, digestsEq_comm fs b.root a.linux,
    digestsEq_comm fs b.root a.initrd, digestsEq_comm fs b.root a.efi]

theorem c3_equivalent_symm_same_root_witness :
    Config.equivalent ⟨[]⟩ { path := "a.conf", root := "/" } { path := "b.conf", root := "/" }
      = Config.equivalent ⟨[]⟩ { path := "b.conf", root := "/" } { path := "a.conf", root := "/" } :=
  c3_equivalent_symm_same_root ⟨[]⟩ _ _ rfl

/-- C9 counterexample: a default entry whose version is `~1` (the boot
loader's pre-release marker sorts below everything, including `-`).  The
created lifeboat's version is `-~1-7` as the claim describes, but under the
version-ordering rule it sorts strictly ABOVE `~1` (comparison result `1`),
not strictly below it. -/
theorem c9_counterexample :
    (Config.create_lifeboat (fun _ => true) false ⟨[]⟩
      { path := "e/arch.conf", root := "/", version := ["~1"], sort_key := ["k"] } 7).map
      (fun p => p.1.version) = .ok ["-~1-7"]
    ∧ verCmpStr "-~1-7" "~1" = 1 := by
  exact ⟨by decide, by decide⟩

/-- C9 amended: a successful `create_lifeboat(D, t)` returns an entry whose
descriptor path is the directory of `D`'s path joined with
`lifeboat_<t>_<basename of D>` and whose version is the single string
`-<D's first version>-<t>`; this synthetic version sorts strictly below
`D`'s version under the boot loader's version-ordering rule provided the
first ordering-relevant character of `D`'s version is a letter, a digit,
`^` or `.` (for versions starting with `~`, or empty/`-`-only versions, the
synthetic version does not sort below; see the counterexample). -/
theorem c9_lifeboat_naming (env : String → Bool) (dry : Bool) (fs : Fs)
    (D : Config) (ts : Nat) (c : Config) (fs1 : Fs)
    (h : Config.create_lifeboat env dry fs D ts = .ok (c, fs1)) :
    c.path = lifeboatPath D.path ts
    ∧ ∀ v rest, D.version = v :: rest →
        c.version = ["-" ++ v ++ "-" ++ toDecStr ts]
        ∧ (goodVerHead v = true → ∀ w ∈ c.version, verCmpStr w v = -1) := by
  unfold Config.create_lifeboat at h
  by_cases hc : chrootOk env D.root = true
  · rw [if_pos hc] at h
    cases hcopy : copyAll dry D.root ts D.payloadFiles fs with
    | error e => rw [hcopy] at h; cases h
    | ok fsA =>
      rw [hcopy] at h
      cases hv : D.version with
      | nil => rw [hv] at h; cases h
      | cons v0 vrest =>
        rw [hv] at h
        simp only [Config.write, if_pos rfl] at h
        cases h
        refine ⟨rfl, ?_⟩
        intro v rest hvr
        injection hvr with h1 h2
        subst h1
        refine ⟨rfl, ?_⟩
        intro hg w hw
        simp only [List.mem_singleton] at hw
        subst hw
        rw [String.append_assoc ("-" ++ v0) "-" (toDecStr ts)]
        exact verCmpStr_dash_lt v0 ("-" ++ toDecStr ts) hg
  · rw [if_neg hc] at h; cases h

theorem c9_lifeboat_naming_witness :
    (({ path := "e/lifeboat_7_arch.conf", root := "/", autosave := true,
        title := ["arch.conf @7"], version := ["-1.2-7"], sort_key := ["k"] } : Config).path
      = lifeboatPath "e/arch.conf" 7)
    ∧ ∀ v rest, (["1.2"] : List String) = v :: rest →
        (["-1.2-7"] : List String) = ["-" ++ v ++ "-" ++ toDecStr 7]
        ∧ (goodVerHead v = true →
            ∀ w ∈ (["-1.2-7"] : List String), verCmpStr w v = -1) :=
  c9_lifeboat_naming (fun _ => true) false ⟨[]⟩
    { path := "e/arch.conf", root := "/", version := ["1.2"], sort_key := ["k"] } 7
    { path := "e/lifeboat_7_arch.conf", root := "/", autosave := true,
      title := ["arch.conf @7"], version := ["-1.2-7"], sort_key := ["k"] }
    ⟨[⟨"/", "e/lifeboat_7_arch.conf",
      "title\tarch.conf @7\nversion\t-1.2-7\nsort-key\tk"⟩]⟩ (by decide)

lemma pyLt_ts (a b : Config) (ha : a.is_lifeboat = true) (hb : b.is_lifeboat = true) :
    pyLt a b = decide (a.timestampD < b.timestampD) := by
  simp [pyLt, ha, hb]

lemma mem_pyInsertAsc (x z : Config) : ∀ l, z ∈ pyInsertAsc x l ↔ z = x ∨ z ∈ l
  | [] => by simp [pyInsertAsc]
  | y :: ys => by
    rw [pyInsertAsc]
    split
    · rw [List.mem_cons, mem_pyInsertAsc x z ys, List.mem_cons]
      tauto
    · simp only [List.mem_cons]

lemma mem_pySortAsc (z : Config) : ∀ l, z ∈ pySortAsc l ↔ z ∈ l
  | [] => by simp [pySortAsc]
  | x :: xs => by
    rw [pySortAsc, mem_pyInsertAsc, mem_pySortAsc z xs, List.mem_cons]

lemma mem_sortDesc (z : Config) (l : List Config) : z ∈ sortDesc l ↔ z ∈ l := by
  rw [sortDesc, List.mem_reverse, mem_pySortAsc, List.mem_reverse]

lemma pyInsertAsc_pairwise (x : Config) (hx : x.is_lifeboat = true) :
    ∀ l, (∀ z ∈ l, z.is_lifeboat = true) →
      l.Pairwise (fun u v => u.timestampD ≤ v.timestampD) →
      (pyInsertAsc x l).Pairwise (fun u v => u.timestampD ≤ v.timestampD)
  | [], _, _ => by simp [pyInsertAsc]
  | y :: ys, hl, hs => by
    rw [List.pairwise_cons] at hs
    obtain ⟨hy, hys⟩ := hs
    have hyl : y.is_lifeboat = true := hl y (by simp)
    by_cases hlt : pyLt y x = true
    · have hlt' : y.timestampD < x.timestampD := by
        rw [pyLt_ts y x hyl hx] at hlt
        simpa using hlt
      rw [pyInsertAsc, if_pos hlt, List.pairwise_cons]
      refine ⟨?_, pyInsertAsc_pairwise x hx ys (fun z hz => hl z (by simp [hz])) hys⟩
      intro z hz
      rcases (mem_pyInsertAsc x z ys).mp hz with rfl | hz
      · omega
      · exact hy z hz
    · have hle : x.timestampD ≤ y.timestampD := by
        rw [pyLt_ts y x hyl hx] at hlt
        simp at hlt
        omega
      rw [pyInsertAsc, if_neg hlt, List.pairwise_cons]
      refine ⟨?_, List.pairwise_cons.mpr ⟨hy, hys⟩⟩
      intro z hz
      rcases List.mem_cons.mp hz with rfl | hz
      · exact hle
      · exact le_trans hle (hy z hz)

lemma pySortAsc_pairwise :
    ∀ l, (∀ z ∈ l, z.is_lifeboat = true) →
      (pySortAsc l).Pairwise (fun u v => u.timestampD ≤ v.timestampD)
  | [], _ => by simp [pySortAsc]
  | x :: xs, hl => by
    rw [pySortAsc]
    exact pyInsertAsc_pairwise x (hl x (by simp)) (pySortAsc xs)
      (fun z hz => hl z (by simp [(mem_pySortAsc z xs).mp hz]))
      (pySortAsc_pairwise xs (fun z hz => hl z (by simp [hz])))

lemma filter_pyInsertAsc (k : Nat) (x : Config) (hx : x.is_lifeboat = true) :
    ∀ l, (∀ z ∈ l, z.is_lifeboat = true) →
      (pyInsertAsc x l).filter (fun z => z.timestampD == k)
        = if x.timestampD = k then x :: l.filter (fun z => z.timestampD == k)
          else l.filter (fun z => z.timestampD == k)
  | [], _ => by
    by_cases hk : x.timestampD = k <;> simp [pyInsertAsc, List.filter_cons, hk]
  | y :: ys, hl => by
    have hyl : y.is_lifeboat = true := hl y (by simp)
    have ih := filter_pyInsertAsc k x hx ys (fun z hz => hl z (by simp [hz]))
    by_cases hlt : pyLt y x = true
    · have hlt' : y.timestampD < x.timestampD := by
        rw [pyLt_ts y x hyl hx] at hlt
        simpa using hlt
      rw [pyInsertAsc, if_pos hlt]
      by_cases hyk : y.timestampD = k
      · have hxk : ¬ x.timestampD = k := by omega
        rw [if_neg hxk] at ih ⊢
        simp [List.filter_cons, hyk, ih]
      · by_cases hxk : x.timestampD = k
        · rw [if_pos hxk] at ih ⊢
          simp [List.filter_cons, hyk, ih]
        · rw [if_neg hxk] at ih ⊢
          simp [List.filter_cons, hyk, ih]
    · rw [pyInsertAsc, if_neg hlt]
      by_cases hxk : x.timestampD = k <;> simp [List.filter_cons, hxk]

lemma filter_pySortAsc (k : Nat) :
    ∀ l, (∀ z ∈ l, z.is_lifeboat = true) →
      (pySortAsc l).filter (fun z => z.timestampD == k)
        = l.filter (fun z => z.timestampD == k)
  | [], _ => rfl
  | x :: xs, hl => by
    rw [pySortAsc,
      filter_pyInsertAsc k x (hl x (by simp)) (pySortAsc xs)
        (fun z hz => hl z (by simp [(mem_pySortAsc z xs).mp hz])),
      filter_pySortAsc k xs (fun z hz => hl z (by simp [hz]))]
    by_cases hxk : x.timestampD = k <;> simp [List.filter_cons, hxk]

/-- C8 counterexample: two lifeboats with equal embedded timestamp `5` and
different descriptor paths.  `list.sort(reverse=True)` leaves them in input
order in both input orders (the sort is stable and `Config.__lt__` compares
only timestamps for two lifeboats), so the tie is NOT broken by descriptor
path ordering: whichever path order the claim intends, one of the two runs
violates it. -/
theorem c8_counterexample :
    sortDesc [{ path := "e/lifeboat_5_b.conf", root := "/" },
              { path := "e/lifeboat_5_a.conf", root := "/" }]
      = [{ path := "e/lifeboat_5_b.conf", root := "/" },
         { path := "e/lifeboat_5_a.conf", root := "/" }]
    ∧ sortDesc [{ path := "e/lifeboat_5_a.conf", root := "/" },
                { path := "e/lifeboat_5_b.conf", root := "/" }]
      = [{ path := "e/lifeboat_5_a.conf", root := "/" },
         { path := "e/lifeboat_5_b.conf", root := "/" }]
    ∧ ({ path := "e/lifeboat_5_b.conf", root := "/" } : Config).timestampD
      = ({ path := "e/lifeboat_5_a.conf", root := "/" } : Config).timestampD
    ∧ ({ path := "e/lifeboat_5_b.conf", root := "/" } : Config).path
      ≠ ({ path := "e/lifeboat_5_a.conf", root := "/" } : Config).path := by
  exact ⟨by decide, by decide, by decide, by decide⟩

/-- C8 amended: existing lifeboats are sorted descending by embedded
timestamp; the sorted list has exactly the original members, and lifeboats
with equal timestamps keep their original relative order (stable sort) —
descriptor path ordering plays no role between two lifeboats. -/
theorem c8_sorted_desc (l : List Config) (hl : ∀ z ∈ l, z.is_lifeboat = true) :
    (sortDesc l).Pairwise (fun u v => v.timestampD ≤ u.timestampD)
    ∧ (∀ z, z ∈ sortDesc l ↔ z ∈ l)
    ∧ (∀ k, (sortDesc l).filter (fun z => z.timestampD == k)
        = l.filter (fun z => z.timestampD == k)) := by
  refine ⟨?_, fun z => mem_sortDesc z l, ?_⟩
  · rw [sortDesc, List.pairwise_reverse]
    exact pySortAsc_pairwise l.reverse (fun z hz => hl z (List.mem_reverse.mp hz))
  · intro k
    rw [sortDesc, List.filter_reverse,
      filter_pySortAsc k l.reverse (fun z hz => hl z (List.mem_reverse.mp hz)),
      List.filter_reverse, List.reverse_reverse]

theorem c8_sorted_desc_witness :
    (sortDesc [{ path := "e/lifeboat_3_a.conf", root := "/" }]).Pairwise
      (fun u v => v.timestampD ≤ u.timestampD)
    ∧ (∀ z, z ∈ sortDesc [{ path := "e/lifeboat_3_a.conf", root := "/" }]
        ↔ z ∈ [({ path := "e/lifeboat_3_a.conf", root := "/" } : Config)])
    ∧ (∀ k, (sortDesc [{ path := "e/lifeboat_3_a.conf", root := "/" }]).filter
          (fun z => z.timestampD == k)
        = [({ path := "e/lifeboat_3_a.conf", root := "/" } : Config)].filter
          (fun z => z.timestampD == k)) :=
  c8_sorted_desc [{ path := "e/lifeboat_3_a.conf", root := "/" }] (by decide)

lemma copyAll_mono (root : String) (ts : Nat) :
    ∀ (files : List String) (fs fs' : Fs),
      copyAll false root ts files fs = .ok fs' →
      ∀ r p v, fs.get r p = some v → fs'.get r p = some v
  | [], fs, fs', h, r, p, v, hv => by
    simp only [copyAll] at h
    cases h; exact hv
  | s :: rest, fs, fs', h, r, p, v, hv => by
    simp only [copyAll, copy_file] at h
    cases hsrc : fs.get root s with
    | none => rw [hsrc] at h; cases h
    | some w =>
      rw [hsrc] at h
      cases hdest : fs.get root (lifeboatPath s ts) with
      | some u => rw [hdest] at h; cases h
      | none =>
        rw [hdest] at h
        simp only [Bool.false_eq_true, if_false] at h
        refine copyAll_mono root ts rest _ fs' h r p v ?_
        by_cases hrp : r = root ∧ p = lifeboatPath s ts
        · rw [hrp.1, hrp.2] at hv
          rw [hv] at hdest; cases hdest
        · rw [Fs.get_put_ne _ _ _ _ _ _ hrp]
          exact hv

lemma copyAll_inv (root : String) (ts : Nat) :
    ∀ (files : List String) (fs fs' : Fs),
      copyAll false root ts files fs = .ok fs' →
      ∀ s ∈ files, fs'.get root (lifeboatPath s ts) = fs'.get root s
        ∧ fs'.get root s ≠ none
  | [], _, _, _, s, hs => by simp at hs
  | s0 :: rest, fs, fs', h, s, hs => by
    have hstep := h
    simp only [copyAll, copy_file] at hstep
    cases hsrc : fs.get root s0 with
    | none => rw [hsrc] at hstep; cases hstep
    | some w =>
      rw [hsrc] at hstep
      cases hdest : fs.get root (lifeboatPath s0 ts) with
      | some u => rw [hdest] at hstep; cases hstep
      | none =>
        rw [hdest] at hstep
        simp only [Bool.false_eq_true, if_false] at hstep
        rcases List.mem_cons.mp hs with rfl | hs
        · have h1 : (fs.put root (lifeboatPath s ts) w).get root (lifeboatPath s ts) = some w :=
            Fs.get_put_same _ _ _ _
          have h2 : (fs.put root (lifeboatPath s ts) w).get root s = some w := by
            rw [Fs.get_put_ne _ _ _ _ _ _ (fun hx => lifeboatPath_ne_self s ts (hx.2.symm))]
            exact hsrc
          have g1 := copyAll_mono root ts rest _ fs' hstep root (lifeboatPath s ts) w h1
          have g2 := copyAll_mono root ts rest _ fs' hstep root s w h2
          rw [g1, g2]
          simp
        · exact copyAll_inv root ts rest _ fs' hstep s hs

lemma copyAll_changes (root : String) (ts : Nat) :
    ∀ (files : List String) (fs fs' : Fs),
      copyAll false root ts files fs = .ok fs' →
      ∀ r p, fs'.get r p ≠ fs.get r p →
        r = root ∧ (∃ s ∈ files, p = lifeboatPath s ts) ∧ fs.get r p = none
  | [], fs, fs', h, r, p, hne => by
    simp only [copyAll] at h
    cases h; exact absurd rfl hne
  | s :: rest, fs, fs', h, r, p, hne => by
    simp only [copyAll, copy_file] at h
    cases hsrc : fs.get root s with
    | none => rw [hsrc] at h; cases h
    | some w =>
      rw [hsrc] at h
      cases hdest : fs.get root (lifeboatPath s ts) with
      | some u => rw [hdest] at h; cases h
      | none =>
        rw [hdest] at h
        simp only [Bool.false_eq_true, if_false] at h
        by_cases hrp : r = root ∧ p = lifeboatPath s ts
        · exact ⟨hrp.1, ⟨s, by simp, hrp.2⟩, by rw [hrp.1, hrp.2]; exact hdest⟩
        · have hput : (fs.put root (lifeboatPath s ts) w).get r p = fs.get r p :=
            Fs.get_put_ne _ _ _ _ _ _ hrp
          by_cases hch : fs'.get r p = (fs.put root (lifeboatPath s ts) w).get r p
          · rw [hch, hput] at hne
            exact absurd rfl hne
          · obtain ⟨h1, ⟨s', hs', hp'⟩, h3⟩ :=
              copyAll_changes root ts rest _ fs' h r p hch
            exact ⟨h1, ⟨s', by simp [hs'], hp'⟩, by rw [← hput]; exact h3⟩

lemma md5All_map_lifeboat (fs : Fs) (root : String) (ts : Nat) :
    ∀ (files : List String),
      (∀ s ∈ files, fs.get root (lifeboatPath s ts) = fs.get root s) →
      md5All fs root (files.map (fun s => lifeboatPath s ts)) = md5All fs root files
  | [], _ => rfl
  | s :: rest, h => by
    simp only [List.map_cons, md5All, md5]
    rw [h s (by simp), md5All_map_lifeboat fs root ts rest (fun z hz => h z (by simp [hz]))]

lemma md5All_isSome (fs : Fs) (root : String) :
    ∀ (files : List String), (∀ s ∈ files, fs.get root s ≠ none) →
      ∃ vs, md5All fs root files = some vs
  | [], _ => ⟨[], rfl⟩
  | s :: rest, h => by
    obtain ⟨vs, hvs⟩ := md5All_isSome fs root rest (fun z hz => h z (by simp [hz]))
    cases hv : fs.get root s with
    | none => exact absurd hv (h s (by simp))
    | some v => exact ⟨v :: vs, by simp only [md5All, md5, hv, hvs]⟩

lemma contains_of_mem (vs : List String) (x : String) (h : x ∈ vs) :
    vs.contains x = true := by
  induction vs with
  | nil => simp at h
  | cons v rest ih =>
    simp only [List.contains_cons]
    rcases List.mem_cons.mp h with rfl | h
    · simp
    · rw [ih h, Bool.or_true]

lemma setEq_refl (vs : List String) : setEq vs vs = true := by
  simp only [setEq, Bool.and_self, List.all_eq_true]
  intro x hx
  exact contains_of_mem vs x hx

lemma create_spec (env : String → Bool) (fs : Fs) (D : Config) (ts : Nat)
    (c : Config) (fs1 : Fs)
    (h : Config.create_lifeboat env false fs D ts = .ok (c, fs1)) :
    c.path = lifeboatPath D.path ts ∧ c.root = D.root
    ∧ c.machine_id = D.machine_id ∧ c.sort_key = D.sort_key ∧ c.options = D.options
    ∧ c.devicetree = D.devicetree ∧ c.devicetree_overlay = D.devicetree_overlay
    ∧ c.architecture = D.architecture
    ∧ c.linux = D.linux.map (fun s => lifeboatPath s ts)
    ∧ c.initrd = D.initrd.map (fun s => lifeboatPath s ts)
    ∧ c.efi = D.efi.map (fun s => lifeboatPath s ts)
    ∧ D.version ≠ []
    ∧ ∃ fsA, copyAll false D.root ts D.payloadFiles fs = .ok fsA
        ∧ fs1 = fsA.put "/" c.path (to_conf c) := by
  unfold Config.create_lifeboat at h
  by_cases hc : chrootOk env D.root = true
  · rw [if_pos hc] at h
    cases hcopy : copyAll false D.root ts D.payloadFiles fs with
    | error e => rw [hcopy] at h; cases h
    | ok fsA =>
      rw [hcopy] at h
      cases hv : D.version with
      | nil => rw [hv] at h; cases h
      | cons v0 vrest =>
        rw [hv] at h
        simp only [Config.write, if_pos rfl] at h
        cases h
        exact ⟨rfl, rfl, rfl, rfl, rfl, rfl, rfl, rfl, rfl, rfl, rfl,
          by simp, fsA, rfl, rfl⟩
  · rw [if_neg hc] at h; cases h

lemma created_equivalent (env : String → Bool) (fs : Fs) (D : Config) (ts : Nat)
    (c : Config) (fs1 : Fs)
    (h : Config.create_lifeboat env false fs D ts = .ok (c, fs1))
    (hnc : ∀ s ∈ D.payloadFiles, ¬(D.root = "/" ∧
      (lifeboatPath D.path ts = s ∨ lifeboatPath D.path ts = lifeboatPath s ts))) :
    Config.equivalent fs1 c D = true := by
  obtain ⟨hpath, hroot, hmi, hsk, hop, hdt, hdto, har, hlin, hini, hefi, -, fsA, hcopy, hfs1⟩ :=
    create_spec env fs D ts c fs1 h
  have hpoint : ∀ s ∈ D.payloadFiles,
      fs1.get D.root (lifeboatPath s ts) = fs1.get D.root s ∧ fs1.get D.root s ≠ none := by
    intro s hs
    have hinv := copyAll_inv D.root ts D.payloadFiles fs fsA hcopy s hs
    have hb1 : fs1.get D.root (lifeboatPath s ts) = fsA.get D.root (lifeboatPath s ts) := by
      rw [hfs1, Fs.get_put_ne]
      intro ⟨hr, hp⟩
      exact hnc s hs ⟨hr, Or.inr (by rw [← hpath, hp])⟩
    have hb2 : fs1.get D.root s = fsA.get D.root s := by
      rw [hfs1, Fs.get_put_ne]
      intro ⟨hr, hp⟩
      exact hnc s hs ⟨hr, Or.inl (by rw [← hpath, hp])⟩
    rw [hb1, hb2]
    exact hinv
  have hdig : ∀ (sel : Config → List String),
      (∀ s ∈ sel D, s ∈ D.payloadFiles) →
      digestsEq fs1 D.root ((sel D).map (fun s => lifeboatPath s ts)) (sel D) = true := by
    intro sel hsub
    unfold digestsEq
    rw [md5All_map_lifeboat fs1 D.root ts (sel D)
      (fun s hs => (hpoint s (hsub s hs)).1)]
    obtain ⟨vs, hvs⟩ := md5All_isSome fs1 D.root (sel D)
      (fun s hs => (hpoint s (hsub s hs)).2)
    rw [hvs]
    exact setEq_refl vs
  unfold Config.equivalent literalsEq
  rw [hroot, hmi, hsk, hop, hdt, hdto, har, hlin, hini, hefi]
  simp only [beq_self_eq_true, Bool.and_self, Bool.true_and, Bool.and_eq_true]
  refine ⟨⟨?_, ?_⟩, ?_⟩
  · exact hdig (fun d => d.linux) (fun s hs => by
      simp [Config.payloadFiles, hs])
  · exact hdig (fun d => d.initrd) (fun s hs => by
      simp [Config.payloadFiles, hs])
  · exact hdig (fun d => d.efi) (fun s hs => by
      simp [Config.payloadFiles, hs])

lemma delete_file_changes (env : String → Bool) (dry : Bool) (root p : String)
    (fs fs' : Fs) (h : delete_file env dry root p fs = .ok fs') :
    ∀ r q, fs'.get r q ≠ fs.get r q → fs'.get r q = none ∧ r = root ∧ q = p := by
  intro r q hne
  by_cases hp : p = ""
  · simp only [delete_file, if_pos hp] at h
    cases h; exact absurd rfl hne
  · cases hc : chrootOk env root
    · simp [delete_file, hp, hc] at h
    · cases dry
      · simp only [delete_file, if_neg hp, hc, if_true, Bool.false_eq_true, if_false] at h
        cases h
        rw [Fs.get_del] at hne ⊢
        split at hne
        · next hx => exact ⟨by rw [if_pos hx], hx.1, hx.2⟩
        · exact absurd rfl hne
      · simp only [delete_file, if_neg hp, hc, if_true] at h
        cases h; exact absurd rfl hne

lemma deleteList_changes (env : String → Bool) (dry : Bool) (root : String) :
    ∀ (files : List String) (fs fs' : Fs),
      deleteList env dry root files fs = .ok fs' →
      ∀ r q, fs'.get r q ≠ fs.get r q → fs'.get r q = none ∧ r = root ∧ q ∈ files
  | [], fs, fs', h, r, q, hne => by
    simp only [deleteList] at h
    cases h; exact absurd rfl hne
  | p :: rest, fs, fs', h, r, q, hne => by
    simp only [deleteList] at h
    cases hd : delete_file env dry root p fs with
    | error e => rw [hd] at h; cases h
    | ok fs1 =>
      rw [hd] at h
      by_cases hch : fs'.get r q = fs1.get r q
      · obtain ⟨h1, h2, h3⟩ := delete_file_changes env dry root p fs fs1 hd r q
          (by rw [← hch]; exact hne)
        exact ⟨by rw [hch, h1], h2, by simp [h3]⟩
      · obtain ⟨h1, h2, h3⟩ := deleteList_changes env dry root rest fs1 fs' h r q hch
        exact ⟨h1, h2, by simp [h3]⟩

lemma removeCfg_changes (env : String → Bool) (dry : Bool) (x : Config)
    (fs fs' : Fs) (h : removeCfg env dry x fs = .ok fs') :
    ∀ r q, fs'.get r q ≠ fs.get r q → fs'.get r q = none ∧
      ((r = x.root ∧ q ∈ x.payloadFiles) ∨ (r = "/" ∧ q = x.path)) := by
  intro r q hne
  simp only [removeCfg] at h
  cases hdl : deleteList env dry x.root x.payloadFiles fs with
  | error e => rw [hdl] at h; cases h
  | ok fs1 =>
    rw [hdl] at h
    by_cases hch : fs'.get r q = fs1.get r q
    · obtain ⟨h1, h2, h3⟩ := deleteList_changes env dry x.root x.payloadFiles fs fs1 hdl r q
        (by rw [← hch]; exact hne)
      exact ⟨by rw [hch, h1], Or.inl ⟨h2, h3⟩⟩
    · obtain ⟨h1, h2, h3⟩ := delete_file_changes env dry "/" x.path fs1 fs' h r q hch
      exact ⟨h1, Or.inr ⟨h2, h3⟩⟩

lemma evictGo_changes (env : String → Bool) (dry : Bool) (maxN : Nat) :
    ∀ (fuel : Nat) (l : List Config) (fs : Fs) (acc : List Config)
      (surv : List Config) (fs' : Fs) (ev : List Config),
      evictGo env dry maxN fuel l fs acc = .ok (surv, fs', ev) →
      ∀ r q, fs'.get r q ≠ fs.get r q → fs'.get r q = none ∧
        ∃ x ∈ l, (r = x.root ∧ q ∈ x.payloadFiles) ∨ (r = "/" ∧ q = x.path)
  | 0, l, fs, acc, surv, fs', ev, h, r, q, hne => by
    simp only [evictGo] at h
    cases h; exact absurd rfl hne
  | fuel + 1, l, fs, acc, surv, fs', ev, h, r, q, hne => by
    simp only [evictGo] at h
    split at h
    · next hcond =>
      cases hrm : removeCfg env dry (l.getLast hcond.2) fs with
      | error e => rw [hrm] at h; cases h
      | ok fs1 =>
        rw [hrm] at h
        by_cases hch : fs'.get r q = fs1.get r q
        · obtain ⟨h1, h2⟩ := removeCfg_changes env dry (l.getLast hcond.2) fs fs1 hrm r q
            (by rw [← hch]; exact hne)
          exact ⟨by rw [hch, h1], l.getLast hcond.2, List.getLast_mem hcond.2, h2⟩
        · obtain ⟨h1, x, hx, h2⟩ :=
            evictGo_changes env dry maxN fuel l.dropLast fs1 _ surv fs' ev h r q hch
          exact ⟨h1, x, List.dropLast_subset l hx, h2⟩
    · cases h; exact absurd rfl hne

lemma evictGo_surv_mem (env : String → Bool) (dry : Bool) (maxN : Nat) :
    ∀ (fuel : Nat) (l : List Config) (fs : Fs) (acc : List Config)
      (surv : List Config) (fs' : Fs) (ev : List Config),
      evictGo env dry maxN fuel l fs acc = .ok (surv, fs', ev) →
      (∀ x ∈ surv, x ∈ l) ∧ (∀ x ∈ ev, x ∈ l ∨ x ∈ acc)
  | 0, l, fs, acc, surv, fs', ev, h => by
    simp only [evictGo] at h
    cases h
    exact ⟨fun x hx => hx, fun x hx => Or.inr hx⟩
  | fuel + 1, l, fs, acc, surv, fs', ev, h => by
    simp only [evictGo] at h
    split at h
    · next hcond =>
      cases hrm : removeCfg env dry (l.getLast hcond.2) fs with
      | error e => rw [hrm] at h; cases h
      | ok fs1 =>
        rw [hrm] at h
        obtain ⟨hs, he⟩ := evictGo_surv_mem env dry maxN fuel l.dropLast fs1 _ surv fs' ev h
        refine ⟨fun x hx => List.dropLast_subset l (hs x hx), fun x hx => ?_⟩
        rcases he x hx with hx' | hx'
        · exact Or.inl (List.dropLast_subset l hx')
        · rcases List.mem_append.mp hx' with hx'' | hx''
          · exact Or.inr hx''
          · simp only [List.mem_singleton] at hx''
            subst hx''
            exact Or.inl (List.getLast_mem hcond.2)
    · cases h
      exact ⟨fun x hx => hx, fun x hx => Or.inr hx⟩

lemma evictGo_length (env : String → Bool) (dry : Bool) (maxN : Nat)
    (hmax : 1 ≤ maxN) :
    ∀ (fuel : Nat) (l : List Config) (fs : Fs) (acc : List Config)
      (surv : List Config) (fs' : Fs) (ev : List Config),
      l.length ≤ fuel →
      evictGo env dry maxN fuel l fs acc = .ok (surv, fs', ev) →
      surv.length < maxN
  | 0, l, fs, acc, surv, fs', ev, hlen, h => by
    simp only [evictGo] at h
    cases h
    omega
  | fuel + 1, l, fs, acc, surv, fs', ev, hlen, h => by
    simp only [evictGo] at h
    split at h
    · next hcond =>
      cases hrm : removeCfg env dry (l.getLast hcond.2) fs with
      | error e => rw [hrm] at h; cases h
      | ok fs1 =>
        rw [hrm] at h
        refine evictGo_length env dry maxN hmax fuel l.dropLast fs1 _ surv fs' ev ?_ h
        have := List.length_dropLast l
        have : 0 < l.length := List.length_pos.mpr hcond.2
        simp only [List.length_dropLast]
        omega
    · next hcond =>
      cases h
      rcases not_and_or.mp hcond with hc | hc
      · omega
      · have : l = [] := not_not.mp hc
        subst this
        simpa using hmax

lemma isEmpty_false_of_ne_nil {α : Type} (l : List α) (h : l ≠ []) : l.isEmpty = false := by
  cases l
  · exact absurd rfl h
  · rfl

lemma applyDefaults_id (dry : Bool) (dsk dv : String) (d0 : Config) (fs : Fs)
    (hsk : d0.sort_key ≠ []) (hv : d0.version ≠ []) :
    applyDefaults dry dsk dv d0 fs = .ok (d0, fs) := by
  unfold applyDefaults
  simp [isEmpty_false_of_ne_nil _ hsk, isEmpty_false_of_ne_nil _ hv]

lemma runRetention_ok_shape (env : String → Bool) (dry : Bool) (dsk dv : String)
    (maxL : Int) (configs : List Config) (dcp : String) (ts : Nat) (fs : Fs)
    (r : RunResult)
    (h : runRetention env dry dsk dv maxL configs dcp ts fs = .ok r) :
    1 ≤ maxL ∧ ∃ D, configs.find? (fun x => x.path == dcp) = some D
      ∧ D.is_lifeboat = false
      ∧ ∃ d2 fs2, applyDefaults dry dsk dv D fs = .ok (d2, fs2)
        ∧ r.defaultCfg = d2
        ∧ ((∃ m, (sortDesc (configs.filter (fun x => x.is_lifeboat))).find?
              (fun x => Config.equivalent fs2 x d2) = some m
            ∧ r = ⟨fs2, sortDesc (configs.filter (fun x => x.is_lifeboat)), none, [], d2⟩)
          ∨ ((sortDesc (configs.filter (fun x => x.is_lifeboat))).find?
              (fun x => Config.equivalent fs2 x d2) = none
            ∧ ∃ fs3 c fs4,
                evict env dry maxL.toNat
                    (sortDesc (configs.filter (fun x => x.is_lifeboat))) fs2 []
                  = .ok (r.lifeboats, fs3, r.evicted)
                ∧ Config.create_lifeboat env dry fs3 d2 ts = .ok (c, fs4)
                ∧ r = ⟨fs4, r.lifeboats, some c, r.evicted, d2⟩)) := by
  unfold runRetention at h
  split at h
  · cases h
  next hmax =>
  split at h
  · cases h
  next d0 hfd =>
  split at h
  · cases h
  next hlb =>
  have hlb2 : d0.is_lifeboat = false := by
    cases hx : d0.is_lifeboat
    · rfl
    · exact absurd hx hlb
  split at h
  · cases h
  next d2 fs2 had =>
  split at h
  · next m hfind =>
    cases h
    exact ⟨by omega, d0, hfd, hlb2, d2, fs2, had, rfl, Or.inl ⟨m, hfind, rfl⟩⟩
  · next hfind =>
    split at h
    · cases h
    next surv fs3 ev hev =>
    split at h
    · cases h
    next c fs4 hcr =>
    cases h
    exact ⟨by omega, d0, hfd, hlb2, d2, fs2, had, rfl,
      Or.inr ⟨hfind, fs3, c, fs4, hev, hcr, rfl⟩⟩

lemma exists_find?_eq_some {α : Type} (p : α → Bool) :
    ∀ (l : List α), (∃ x ∈ l, p x = true) → ∃ y, l.find? p = some y
  | [], h => by simp at h
  | a :: l, h => by
    cases ha : p a with
    | true => exact ⟨a, List.find?_cons_of_pos _ ha⟩
    | false =>
      obtain ⟨x, hx, hp⟩ := h
      rcases List.mem_cons.mp hx with rfl | hx
      · rw [ha] at hp; cases hp
      · obtain ⟨y, hy⟩ := exists_find?_eq_some p l ⟨x, hx, hp⟩
        exact ⟨y, by rw [List.find?_cons_of_neg _ (by simp [ha]), hy]⟩

lemma runRetention_eval (env : String → Bool) (dry : Bool) (dsk dv : String)
    (maxL : Int) (configs : List Config) (dcp : String) (ts : Nat) (fs : Fs)
    (D : Config)
    (hg : ¬ maxL < 1)
    (hfd : configs.find? (fun x => x.path == dcp) = some D)
    (hlb : D.is_lifeboat = false)
    (hsk : D.sort_key ≠ []) (hv : D.version ≠ []) :
    runRetention env dry dsk dv maxL configs dcp ts fs =
      match (sortDesc (configs.filter (fun x => x.is_lifeboat))).find?
          (fun x => Config.equivalent fs x D) with
      | some _ => .ok ⟨fs, sortDesc (configs.filter (fun x => x.is_lifeboat)), none, [], D⟩
      | none =>
        match evict env dry maxL.toNat
            (sortDesc (configs.filter (fun x => x.is_lifeboat))) fs [] with
        | .error e => .error e
        | .ok (surv, fs3, ev) =>
          match Config.create_lifeboat env dry fs3 D ts with
          | .error e => .error e
          | .ok (c, fs4) => .ok ⟨fs4, surv, some c, ev, D⟩ := by
  unfold runRetention
  rw [if_neg hg, hfd]
  simp only [hlb, Bool.false_eq_true, if_false,
    applyDefaults_id dry dsk dv D fs hsk hv]

/-- C1: with `dry_run` enabled, the descriptor-write primitive does NOT
leave every file unchanged: `Config.write` opens the target with mode `'w'`
before consulting `DRY_RUN`, so a dry run that decides to create a lifeboat
still creates the new descriptor file on disk (truncated to empty).  Here a
dry run over a default entry with no equivalent lifeboat creates
`e/lifeboat_7_arch.conf` (content `""`) where no file existed, while the
copy and delete primitives are correctly suppressed. -/
theorem c1_dry_run_creates_descriptor :
    (runRetention (fun _ => true) true "k" "v" 2
      [{ path := "e/arch.conf", root := "/", sort_key := ["k"], version := ["1"],
         efi := ["e/linux.efi"] }]
      "e/arch.conf" 7
      ⟨[⟨"/", "e/arch.conf", "CONF"⟩, ⟨"/", "e/linux.efi", "EFI1"⟩]⟩).map
        (fun r => r.fs.get "/" "e/lifeboat_7_arch.conf") = .ok (some "")
    ∧ (⟨[⟨"/", "e/arch.conf", "CONF"⟩, ⟨"/", "e/linux.efi", "EFI1"⟩]⟩ : Fs).get
        "/" "e/lifeboat_7_arch.conf" = none := by
  exact ⟨by decide, by decide⟩

/-- C4 counterexample: three existing lifeboats, one of them equivalent to
the default entry, `max_lifeboats = 2`.  The run finds the equivalent
lifeboat, stops, and evicts nothing, so three lifeboats remain: the number
of existing lifeboats after the run exceeds `max_lifeboats`. -/
theorem c4_counterexample :
    (runRetention (fun _ => true) false "k" "v" 2
      [{ path := "e/arch.conf", root := "/", sort_key := ["k"], version := ["1"] },
       { path := "e/lifeboat_1_arch.conf", root := "/", sort_key := ["k"], version := ["-1-1"] },
       { path := "e/lifeboat_2_arch.conf", root := "/", sort_key := ["z"], version := ["-1-2"] },
       { path := "e/lifeboat_3_arch.conf", root := "/", sort_key := ["z"], version := ["-1-3"] }]
      "e/arch.conf" 9 ⟨[]⟩).map
        (fun r => r.lifeboats.length + r.created.toList.length) = .ok 3
    ∧ ¬((3 : Nat) ≤ (2 : Int).toNat) := by
  exact ⟨by decide, by decide⟩

/-- C4 amended: after every retention run that actually creates a new
lifeboat (no existing lifeboat was equivalent to the default entry), the
number of lifeboats is at most `max_lifeboats`; a run that finds an
equivalent lifeboat changes nothing, so a pre-existing excess (e.g. from an
earlier run with a larger limit) persists — see the counterexample. -/
theorem c4_retention_bound (env : String → Bool) (dry : Bool) (dsk dv : String)
    (maxL : Int) (configs : List Config) (dcp : String) (ts : Nat) (fs : Fs)
    (r : RunResult)
    (h : runRetention env dry dsk dv maxL configs dcp ts fs = .ok r)
    (hc : r.created.isSome = true) :
    r.lifeboats.length + r.created.toList.length ≤ maxL.toNat := by
  obtain ⟨hmax, D, hfd, hlb, d2, fs2, had, hdf, hcase⟩ :=
    runRetention_ok_shape env dry dsk dv maxL configs dcp ts fs r h
  rcases hcase with ⟨m, hfind, hr⟩ | ⟨hfind, fs3, c, fs4, hev, hcr, hr⟩
  · rw [hr] at hc; simp at hc
  · have hcreated : r.created = some c := by rw [hr]
    unfold evict at hev
    have hlen := evictGo_length env dry maxL.toNat (by omega) _ _ fs2 []
      r.lifeboats fs3 r.evicted (le_refl _) hev
    rw [hcreated]
    simp only [Option.toList_some, List.length_singleton]
    omega

theorem c4_retention_bound_witness : (0 : Nat) + 1 ≤ (2 : Int).toNat :=
  c4_retention_bound (fun _ => true) false "k" "v" 2
    [{ path := "e/arch.conf", root := "/", sort_key := ["k"], version := ["1"] }]
    "e/arch.conf" 7 ⟨[⟨"/", "e/arch.conf", "CONF"⟩]⟩
    ⟨⟨[⟨"/", "e/lifeboat_7_arch.conf", "title\tarch.conf @7\nversion\t-1-7\nsort-key\tk"⟩,
      ⟨"/", "e/arch.conf", "CONF"⟩]⟩, [],
     some { path := "e/lifeboat_7_arch.conf", root := "/", autosave := true,
            title := ["arch.conf @7"], version := ["-1-7"], sort_key := ["k"] }, [],
     { path := "e/arch.conf", root := "/", sort_key := ["k"], version := ["1"] }⟩
    (by decide) (by decide)

/-- C5 amended: if a retention run completes with a default entry that
already carries a sort-key and a version (otherwise the first run rewrites
its descriptor), and the snapshot descriptor's path does not coincide with
any payload source or with any payload's own lifeboat copy (hypothesis
`hnc`), then running again over the resulting state — the default plus the
surviving lifeboats plus the one just created — creates no new lifeboat and
evicts nothing: the lifeboat created by the first run (or the match that
stopped it) is equivalent to the default.  The aliasing proviso is real,
not a modelling artifact: an entry that lists its own descriptor among its
payload files has the payload copy clobbered by the descriptor write (mode
`'w'`), and the second run creates again — see the counterexample. -/
theorem c5_idempotent (env : String → Bool) (dsk dv : String) (maxL : Int)
    (configs : List Config) (dcp : String) (ts1 ts2 : Nat) (fs : Fs)
    (D : Config) (r1 : RunResult)
    (h1 : runRetention env false dsk dv maxL configs dcp ts1 fs = .ok r1)
    (hd : configs.find? (fun x => x.path == dcp) = some D)
    (hsk : D.sort_key ≠ []) (hv : D.version ≠ [])
    (hnc : ∀ s ∈ D.payloadFiles, ¬(D.root = "/" ∧
      (lifeboatPath D.path ts1 = s ∨ lifeboatPath D.path ts1 = lifeboatPath s ts1))) :
    ∃ r2, runRetention env false dsk dv maxL
        (D :: (r1.lifeboats ++ r1.created.toList)) dcp ts2 r1.fs = .ok r2
      ∧ r2.created = none ∧ r2.evicted = [] := by
  obtain ⟨hmax, D', hfd', hlb', d2, fs2, had, hdf, hcase⟩ :=
    runRetention_ok_shape env false dsk dv maxL configs dcp ts1 fs r1 h1
  rw [hd] at hfd'
  injection hfd' with hDD
  subst hDD
  rw [applyDefaults_id false dsk dv D fs hsk hv] at had
  injection had with hpair
  injection hpair with hpd hpf
  subst hpd
  subst hpf
  have hpD : (D.path == dcp) = true := by simpa using List.find?_some hd
  rcases hcase with ⟨m, hfind, hr1⟩ | ⟨hfind, fs3, c, fs4, hev, hcr, hr1⟩
  · have hr1fs : r1.fs = fs := by rw [hr1]
    have hm := List.mem_of_find?_eq_some hfind
    have hmp : Config.equivalent fs m D = true := by simpa using List.find?_some hfind
    have hmlb : m.is_lifeboat = true :=
      (List.mem_filter.mp ((mem_sortDesc m _).mp hm)).2
    have hmem2 : m ∈ D :: (r1.lifeboats ++ r1.created.toList) := by
      refine List.mem_cons.mpr (Or.inr (List.mem_append.mpr (Or.inl ?_)))
      rw [hr1]
      exact hm
    obtain ⟨y, hy⟩ := exists_find?_eq_some (fun x => Config.equivalent r1.fs x D)
      (sortDesc ((D :: (r1.lifeboats ++ r1.created.toList)).filter
        (fun x => x.is_lifeboat)))
      ⟨m, (mem_sortDesc m _).mpr (List.mem_filter.mpr ⟨hmem2, hmlb⟩),
        by rw [hr1fs]; exact hmp⟩
    refine ⟨⟨r1.fs, sortDesc ((D :: (r1.lifeboats ++ r1.created.toList)).filter
      (fun x => x.is_lifeboat)), none, [], D⟩, ?_, rfl, rfl⟩
    rw [runRetention_eval env false dsk dv maxL _ dcp ts2 r1.fs D (by omega)
      (List.find?_cons_of_pos _ hpD) hlb' hsk hv, hy]
  · have hr1fs : r1.fs = fs4 := by rw [hr1]
    have hr1cr : r1.created = some c := by rw [hr1]
    obtain ⟨hcpath, -⟩ := create_spec env fs3 D ts1 c fs4 hcr
    have hclb : c.is_lifeboat = true := by
      unfold Config.is_lifeboat
      rw [hcpath]
      exact isLifeboatName_lifeboatPath D.path ts1
    have heqv : Config.equivalent fs4 c D = true :=
      created_equivalent env fs3 D ts1 c fs4 hcr hnc
    have hmem2 : c ∈ D :: (r1.lifeboats ++ r1.created.toList) := by
      refine List.mem_cons.mpr (Or.inr (List.mem_append.mpr (Or.inr ?_)))
      rw [hr1cr]
      simp
    obtain ⟨y, hy⟩ := exists_find?_eq_some (fun x => Config.equivalent r1.fs x D)
      (sortDesc ((D :: (r1.lifeboats ++ r1.created.toList)).filter
        (fun x => x.is_lifeboat)))
      ⟨c, (mem_sortDesc c _).mpr (List.mem_filter.mpr ⟨hmem2, hclb⟩),
        by rw [hr1fs]; exact heqv⟩
    refine ⟨⟨r1.fs, sortDesc ((D :: (r1.lifeboats ++ r1.created.toList)).filter
      (fun x => x.is_lifeboat)), none, [], D⟩, ?_, rfl, rfl⟩
    rw [runRetention_eval env false dsk dv maxL _ dcp ts2 r1.fs D (by omega)
      (List.find?_cons_of_pos _ hpD) hlb' hsk hv, hy]

theorem c5_idempotent_witness :
    ∃ r2, runRetention (fun _ => true) false "k" "v" 2
        (({ path := "e/arch.conf", root := "/", sort_key := ["k"], version := ["1"] } : Config)
          :: ([{ path := "e/lifeboat_1_arch.conf", root := "/", sort_key := ["k"],
                 version := ["-1-1"] }] ++ []))
        "e/arch.conf" 6 ⟨[]⟩ = .ok r2
      ∧ r2.created = none ∧ r2.evicted = [] :=
  c5_idempotent (fun _ => true) "k" "v" 2
    [{ path := "e/arch.conf", root := "/", sort_key := ["k"], version := ["1"] },
     { path := "e/lifeboat_1_arch.conf", root := "/", sort_key := ["k"], version := ["-1-1"] }]
    "e/arch.conf" 5 6 ⟨[]⟩
    { path := "e/arch.conf", root := "/", sort_key := ["k"], version := ["1"] }
    ⟨⟨[]⟩,
     [{ path := "e/lifeboat_1_arch.conf", root := "/", sort_key := ["k"], version := ["-1-1"] }],
     none, [],
     { path := "e/arch.conf", root := "/", sort_key := ["k"], version := ["1"] }⟩
    (by decide) (by decide) (by decide) (by decide) (by decide)

/-- C5 counterexample: a default entry whose `efi` payload is its own
descriptor file `e/arch.conf`.  The first run copies that payload to
`e/lifeboat_7_arch.conf` and then writes the snapshot descriptor (mode
`'w'`) to the very same path, overwriting the payload copy; the snapshot's
payload digest therefore differs from the default's, so a second run over
the resulting state — with the live default entry untouched between the
runs — finds no equivalent lifeboat and creates yet another snapshot,
refuting unconditional idempotence. -/
theorem c5_counterexample :
    runRetention (fun _ => true) false "k" "v" 2
      [{ path := "e/arch.conf", root := "/", sort_key := ["k"], version := ["1"],
         efi := ["e/arch.conf"] }]
      "e/arch.conf" 7 ⟨[⟨"/", "e/arch.conf", "CONF"⟩]⟩
    = .ok ⟨⟨[⟨"/", "e/lifeboat_7_arch.conf",
              "title\tarch.conf @7\nversion\t-1-7\nsort-key\tk\nefi\te/lifeboat_7_arch.conf"⟩,
             ⟨"/", "e/lifeboat_7_arch.conf", "CONF"⟩,
             ⟨"/", "e/arch.conf", "CONF"⟩]⟩, [],
        some { path := "e/lifeboat_7_arch.conf", root := "/", autosave := true,
               title := ["arch.conf @7"], version := ["-1-7"], sort_key := ["k"],
               efi := ["e/lifeboat_7_arch.conf"] }, [],
        { path := "e/arch.conf", root := "/", sort_key := ["k"], version := ["1"],
          efi := ["e/arch.conf"] }⟩
    ∧ (⟨[⟨"/", "e/lifeboat_7_arch.conf",
          "title\tarch.conf @7\nversion\t-1-7\nsort-key\tk\nefi\te/lifeboat_7_arch.conf"⟩,
         ⟨"/", "e/lifeboat_7_arch.conf", "CONF"⟩,
         ⟨"/", "e/arch.conf", "CONF"⟩]⟩ : Fs).get "/" "e/arch.conf" = some "CONF"
    ∧ (runRetention (fun _ => true) false "k" "v" 2
        (({ path := "e/arch.conf", root := "/", sort_key := ["k"], version := ["1"],
            efi := ["e/arch.conf"] } : Config)
          :: ([] ++ [{ path := "e/lifeboat_7_arch.conf", root := "/", autosave := true,
                       title := ["arch.conf @7"], version := ["-1-7"], sort_key := ["k"],
                       efi := ["e/lifeboat_7_arch.conf"] }]))
        "e/arch.conf" 8
        ⟨[⟨"/", "e/lifeboat_7_arch.conf",
           "title\tarch.conf @7\nversion\t-1-7\nsort-key\tk\nefi\te/lifeboat_7_arch.conf"⟩,
          ⟨"/", "e/lifeboat_7_arch.conf", "CONF"⟩,
          ⟨"/", "e/arch.conf", "CONF"⟩]⟩).map (fun r => (r.created.isSome, r.evicted.length))
      = .ok (true, 0) := by
  exact ⟨by decide, by decide, by decide⟩

/-- C2 counterexample: a default entry with no `sort-key` field.  `main`
replaces it via `dc.replace(..., autosave=True)`, whose `__post_init__`
calls `Config.write` with mode `'w'` and REWRITES the live default entry's
descriptor file (content `orig` becomes the serialized entry), so the
default entry is not pure read-only input. -/
theorem c2_counterexample :
    (runRetention (fun _ => true) false "k" "v" 2
      [{ path := "e/arch.conf", root := "/", version := ["1"] }]
      "e/arch.conf" 7 ⟨[⟨"/", "e/arch.conf", "orig"⟩]⟩).map
        (fun r => r.fs.get "/" "e/arch.conf") = .ok (some "version\t1\nsort-key\tk")
    ∧ (⟨[⟨"/", "e/arch.conf", "orig"⟩]⟩ : Fs).get "/" "e/arch.conf" = some "orig" := by
  exact ⟨by decide, by decide⟩

/-- C2 amended: provided the default entry already carries a sort-key and a
version (otherwise the run rewrites its descriptor -- see the
counterexample), a completed run (1) never overwrites the content of any
existing file whose basename is not lifeboat-prefixed -- in particular the
default entry's descriptor and its payload files are never rewritten;
(2) every file it creates is at a lifeboat-prefixed path; (3) every file it
deletes is the descriptor (under `/`) or a payload file (under its root) of
one of the enumerated lifeboat entries; so (4) the default's descriptor
either still holds its exact prior content or was deleted, which by (3) can
only happen as part of evicting a lifeboat entry that lists it as a
payload. -/
theorem c2_frame (env : String → Bool) (dsk dv : String) (maxL : Int)
    (configs : List Config) (dcp : String) (ts : Nat) (fs : Fs)
    (r : RunResult) (D : Config)
    (h : runRetention env false dsk dv maxL configs dcp ts fs = .ok r)
    (hd : configs.find? (fun x => x.path == dcp) = some D)
    (hsk : D.sort_key ≠ []) (hv : D.version ≠ []) :
    (∀ rt p v w, fs.get rt p = some v → r.fs.get rt p = some w → v ≠ w →
        isLifeboatName p = true)
    ∧ (∀ rt p, fs.get rt p = none → r.fs.get rt p ≠ none → isLifeboatName p = true)
    ∧ (∀ rt p, fs.get rt p ≠ none → r.fs.get rt p = none →
        ∃ x ∈ configs, x.is_lifeboat = true ∧
          ((rt = x.root ∧ p ∈ x.payloadFiles) ∨ (rt = "/" ∧ p = x.path)))
    ∧ (r.fs.get "/" D.path = fs.get "/" D.path ∨ r.fs.get "/" D.path = none) := by
  obtain ⟨hmax, D', hfd', hlb', d2, fs2, had, hdf, hcase⟩ :=
    runRetention_ok_shape env false dsk dv maxL configs dcp ts fs r h
  rw [hd] at hfd'
  injection hfd' with hDD
  subst hDD
  rw [applyDefaults_id false dsk dv D fs hsk hv] at had
  injection had with hpair
  injection hpair with hpd hpf
  subst hpd
  subst hpf
  have hDname : isLifeboatName D.path = false := hlb'
  rcases hcase with ⟨m, hfind, hr1⟩ | ⟨hfind, fs3, c, fs4, hev, hcr, hr1⟩
  · have hrfs : r.fs = fs := by rw [hr1]
    refine ⟨?_, ?_, ?_, Or.inl (by rw [hrfs])⟩
    · intro rt p v w h1 h2 hne
      rw [hrfs, h1] at h2
      injection h2 with h2
      exact absurd h2 hne
    · intro rt p h0 h1
      rw [hrfs, h0] at h1
      exact absurd rfl h1
    · intro rt p h0 h1
      rw [hrfs] at h1
      exact absurd h1 h0
  · have hrfs : r.fs = fs4 := by rw [hr1]
    obtain ⟨hcpath, -, -, -, -, -, -, -, -, -, -, -, fsA, hcopy, hfs4⟩ :=
      create_spec env fs3 D ts c fs4 hcr
    unfold evict at hev
    have hlbmem : ∀ x, x ∈ sortDesc (configs.filter (fun z => z.is_lifeboat)) →
        x ∈ configs ∧ x.is_lifeboat = true := by
      intro x hx
      exact List.mem_filter.mp ((mem_sortDesc x _).mp hx)
    have H1 : ∀ rt p v w, fs.get rt p = some v → r.fs.get rt p = some w → v ≠ w →
        isLifeboatName p = true := by
      intro rt p v w h1 h2 hne
      rw [hrfs] at h2
      by_cases hcp : rt = "/" ∧ p = c.path
      · rw [hcp.2, hcpath]
        exact isLifeboatName_lifeboatPath D.path ts
      · have e1 : fs4.get rt p = fsA.get rt p := by
          rw [hfs4]
          exact Fs.get_put_ne _ _ _ _ _ _ hcp
        rw [e1] at h2
        by_cases hch : fsA.get rt p = fs3.get rt p
        · rw [hch] at h2
          by_cases hch2 : fs3.get rt p = fs.get rt p
          · rw [hch2, h1] at h2
            injection h2 with h2
            exact absurd h2 hne
          · obtain ⟨hnone, -⟩ := evictGo_changes env false maxL.toNat _ _ fs []
              r.lifeboats fs3 r.evicted hev rt p hch2
            rw [hnone] at h2
            cases h2
        · obtain ⟨-, ⟨s, hs, hps⟩, -⟩ :=
            copyAll_changes D.root ts D.payloadFiles fs3 fsA hcopy rt p hch
          rw [hps]
          exact isLifeboatName_lifeboatPath s ts
    have H2 : ∀ rt p, fs.get rt p = none → r.fs.get rt p ≠ none →
        isLifeboatName p = true := by
      intro rt p h0 h1
      rw [hrfs] at h1
      by_cases hcp : rt = "/" ∧ p = c.path
      · rw [hcp.2, hcpath]
        exact isLifeboatName_lifeboatPath D.path ts
      · have e1 : fs4.get rt p = fsA.get rt p := by
          rw [hfs4]
          exact Fs.get_put_ne _ _ _ _ _ _ hcp
        rw [e1] at h1
        by_cases hch : fsA.get rt p = fs3.get rt p
        · rw [hch] at h1
          by_cases hch2 : fs3.get rt p = fs.get rt p
          · rw [hch2, h0] at h1
            exact absurd rfl h1
          · obtain ⟨hnone, -⟩ := evictGo_changes env false maxL.toNat _ _ fs []
              r.lifeboats fs3 r.evicted hev rt p hch2
            rw [hnone] at h1
            exact absurd rfl h1
        · obtain ⟨-, ⟨s, hs, hps⟩, -⟩ :=
            copyAll_changes D.root ts D.payloadFiles fs3 fsA hcopy rt p hch
          rw [hps]
          exact isLifeboatName_lifeboatPath s ts
    have H3 : ∀ rt p, fs.get rt p ≠ none → r.fs.get rt p = none →
        ∃ x ∈ configs, x.is_lifeboat = true ∧
          ((rt = x.root ∧ p ∈ x.payloadFiles) ∨ (rt = "/" ∧ p = x.path)) := by
      intro rt p h0 h1
      rw [hrfs] at h1
      have hne_cp : ¬(rt = "/" ∧ p = c.path) := by
        rintro ⟨rfl, rfl⟩
        rw [hfs4, Fs.get_put_same] at h1
        cases h1
      have e1 : fs4.get rt p = fsA.get rt p := by
        rw [hfs4]
        exact Fs.get_put_ne _ _ _ _ _ _ hne_cp
      rw [e1] at h1
      have e2 : fs3.get rt p = none := by
        cases hfs3 : fs3.get rt p with
        | none => rfl
        | some v =>
          have := copyAll_mono D.root ts D.payloadFiles fs3 fsA hcopy rt p v hfs3
          rw [this] at h1
          cases h1
      have hch : fs3.get rt p ≠ fs.get rt p := by
        rw [e2]
        exact fun hx => h0 hx.symm
      obtain ⟨-, x, hx, hloc⟩ := evictGo_changes env false maxL.toNat _ _ fs []
        r.lifeboats fs3 r.evicted hev rt p hch
      exact ⟨x, (hlbmem x hx).1, (hlbmem x hx).2, hloc⟩
    refine ⟨H1, H2, H3, ?_⟩
    cases hfinal : r.fs.get "/" D.path with
    | none => exact Or.inr rfl
    | some w =>
      left
      cases h0 : fs.get "/" D.path with
      | none =>
        have := H2 "/" D.path h0 (by rw [hfinal]; exact fun hx => Option.noConfusion hx)
        rw [hDname] at this
        cases this
      | some v =>
        by_cases hvw : v = w
        · rw [hvw]
        · have := H1 "/" D.path v w h0 hfinal hvw
          rw [hDname] at this
          cases this

theorem c2_frame_witness :
    (∀ rt p v w, (⟨[⟨"/", "e/arch.conf", "CONF"⟩]⟩ : Fs).get rt p = some v →
        (⟨[⟨"/", "e/lifeboat_7_arch.conf",
            "title\tarch.conf @7\nversion\t-1-7\nsort-key\tk"⟩,
           ⟨"/", "e/arch.conf", "CONF"⟩]⟩ : Fs).get rt p = some w → v ≠ w →
        isLifeboatName p = true)
    ∧ (∀ rt p, (⟨[⟨"/", "e/arch.conf", "CONF"⟩]⟩ : Fs).get rt p = none →
        (⟨[⟨"/", "e/lifeboat_7_arch.conf",
            "title\tarch.conf @7\nversion\t-1-7\nsort-key\tk"⟩,
           ⟨"/", "e/arch.conf", "CONF"⟩]⟩ : Fs).get rt p ≠ none →
        isLifeboatName p = true)
    ∧ (∀ rt p, (⟨[⟨"/", "e/arch.conf", "CONF"⟩]⟩ : Fs).get rt p ≠ none →
        (⟨[⟨"/", "e/lifeboat_7_arch.conf",
            "title\tarch.conf @7\nversion\t-1-7\nsort-key\tk"⟩,
           ⟨"/", "e/arch.conf", "CONF"⟩]⟩ : Fs).get rt p = none →
        ∃ x ∈ [({ path := "e/arch.conf", root := "/", sort_key := ["k"],
                  version := ["1"] } : Config)], x.is_lifeboat = true ∧
          ((rt = x.root ∧ p ∈ x.payloadFiles) ∨ (rt = "/" ∧ p = x.path)))
    ∧ ((⟨[⟨"/", "e/lifeboat_7_arch.conf",
          "title\tarch.conf @7\nversion\t-1-7\nsort-key\tk"⟩,
         ⟨"/", "e/arch.conf", "CONF"⟩]⟩ : Fs).get "/" "e/arch.conf"
        = (⟨[⟨"/", "e/arch.conf", "CONF"⟩]⟩ : Fs).get "/" "e/arch.conf"
      ∨ (⟨[⟨"/", "e/lifeboat_7_arch.conf",
            "title\tarch.conf @7\nversion\t-1-7\nsort-key\tk"⟩,
           ⟨"/", "e/arch.conf", "CONF"⟩]⟩ : Fs).get "/" "e/arch.conf" = none) :=
  c2_frame (fun _ => true) "k" "v" 2
    [{ path := "e/arch.conf", root := "/", sort_key := ["k"], version := ["1"] }]
    "e/arch.conf" 7 ⟨[⟨"/", "e/arch.conf", "CONF"⟩]⟩
    ⟨⟨[⟨"/", "e/lifeboat_7_arch.conf", "title\tarch.conf @7\nversion\t-1-7\nsort-key\tk"⟩,
      ⟨"/", "e/arch.conf", "CONF"⟩]⟩, [],
     some { path := "e/lifeboat_7_arch.conf", root := "/", autosave := true,
            title := ["arch.conf @7"], version := ["-1-7"], sort_key := ["k"] }, [],
     { path := "e/arch.conf", root := "/", sort_key := ["k"], version := ["1"] }⟩
    { path := "e/arch.conf", root := "/", sort_key := ["k"], version := ["1"] }
    (by decide) (by decide) (by decide) (by decide)
